import Mathlib

/-!
GraphQL blog backend: shallow embedding and verified properties.

The embedding follows the JavaScript sources:

* `middleware/auth.js`   : `Middleware.auth`
* `graphql/resolvers.js` : namespace `Resolvers`
* `controllers/feed.js`  : namespace `Feed`
* `models/post.js`       : `Post`, `Post.requiredPaths`
* `util/file.js`         : `clearImage`
* `app.js`               : namespace `App` (upload route, error handler, `formatError`)

The MongoDB collections are lists of documents, the file system is seen through
the log of `fs.unlink` requests, and the socket channel through the log of
emitted events.  ObjectIds are natural numbers; timestamps are natural numbers
(milliseconds), and `toISOString` is kept as the identity on them.  A handler is
a function from the stores to its result and the stores afterwards, so that a
failure after a write keeps the write.

`State.Consistent` collects what MongoDB and the schemas guarantee of stored
documents (unique `_id`, resolving `creator`, required paths filled); the
resolvers preserve it (`createPost_consistent` and its siblings).
`State.Lockstep` is the agreement of the users' `posts` lists with the post
store; `runCalls` runs a sequence of mutating resolver calls.
-/

namespace Blog

/-! ## Data model -/

/-- ObjectId of a MongoDB document (the value behind `_id.toString()`). -/
abbrev ObjectId := Nat

/-- Modelled from the spec: the User document of `models/user.js` (that file is not among the
sources): email, password hash, name, status and the list of authored post references. -/
structure User where
  _id : ObjectId
  email : String
  password : String
  name : String
  status : String
  posts : List ObjectId
deriving DecidableEq, Repr

/-- The Post document of `models/post.js`, with the two fields added by `timestamps: true`. -/
structure Post where
  _id : ObjectId
  title : String
  imageUrl : String
  content : String
  creator : ObjectId
  createdAt : Nat
  updatedAt : Nat
deriving DecidableEq, Repr

/-- A post as the resolvers return it: `{...doc, _id, createdAt, updatedAt}` with the `creator`
path populated (`none` is the `null` that `populate` leaves for a dangling reference). -/
structure PostDoc where
  _id : ObjectId
  title : String
  imageUrl : String
  content : String
  creator : Option User
  createdAt : Nat
  updatedAt : Nat
deriving DecidableEq, Repr

/-- A JavaScript `Error` object built by the handlers: `error.code` is set by the resolvers,
`error.statusCode` by the REST controllers, `error.data` carries validation messages. -/
structure JsError where
  message : String
  code : Option Nat
  statusCode : Option Nat
  data : List String
deriving DecidableEq, Repr

/-- What a handler can throw. -/
inductive Thrown where
  /-- An `Error` object built and thrown by the handler -/
  | error (e : JsError)
  /-- TypeError: property access on `null` or `undefined` -/
  | typeError
  /-- Mongoose `ValidationError` raised by `save()`, with the failing paths -/
  | validationError (paths : List String)
  /-- MongoDB rejects the query (negative `skip`) -/
  | mongoError
deriving DecidableEq, Repr

/-- Payload of an event emitted on the `"posts"` channel by the REST controllers. -/
inductive Notification where
  /-- Event `{action: "create", post: {...post._doc, creator: {_id, name}}}` -/
  | create (post : Post) (creatorId : Option ObjectId) (creatorName : String)
  /-- Event `{action: "update", post: result}` -/
  | update (post : PostDoc)
  /-- Event `{action: "delete", post: postId}` -/
  | delete (postId : ObjectId)
deriving DecidableEq, Repr

/-- The stores the handlers act on. `unlinked` is the log of image deletions requested through
`clearImage`, `emitted` the log of `io.getIO().emit` calls (event name, payload), `lastId` the
largest ObjectId issued so far. -/
structure State where
  users : List User
  posts : List Post
  unlinked : List String
  emitted : List (String × Notification)
  lastId : Nat
deriving DecidableEq, Repr

/-- The request as the handlers downstream of the auth middleware see it. -/
structure Req where
  isAuth : Bool
  userId : Option ObjectId
deriving DecidableEq, Repr

/-! ## middleware/auth.js -/

/-- What `jwt.verify` may hand back: an object payload (with its `userId` field, if any), a
string payload, or a nullish value. -/
inductive Decoded where
  | object (userId : Option ObjectId)
  | text (s : String)
  | nullish
deriving DecidableEq, Repr

/-- JavaScript truthiness of the decoded token (`!decodedToken` is its negation). -/
def Decoded.truthy : Decoded → Bool
  | .object _ => true
  | .text s => s != ""
  | .nullish => false

/-- The expression `decodedToken.userId`. -/
def Decoded.userId : Decoded → Option ObjectId
  | .object u => u
  | .text _ => none
  | .nullish => none

/-- What the middleware does to the outside: calls of `next` (with the error passed, if any)
and writes to the response. -/
inductive GateEffect where
  | next (err : Option Thrown)
  | respond (status : Nat)
deriving DecidableEq, Repr

/-- JavaScript truthiness of `req.get("Authorization")`: the header is there and not empty. -/
def headerPresent : Option String → Bool
  | none => false
  | some h => h != ""

/-- The pieces of `str.split(" ")`: the text between consecutive spaces, empty pieces kept. -/
def splitOnSpace : List Char → List (List Char)
  | [] => [[]]
  | c :: cs =>
    if c = ' ' then [] :: splitOnSpace cs
    else
      match splitOnSpace cs with
      | [] => [[c]]
      | w :: ws => (c :: w) :: ws

/-- The expression `authHeader.split(" ")[1]` (`none` is `undefined`). -/
def bearerToken (authHeader : String) : Option String :=
  ((splitOnSpace authHeader.toList)[1]?).map String.mk

/-- The auth middleware of `middleware/auth.js`. `verify` stands for
`jwt.verify(·, process.env.JWT_TOKEN)`: it throws (`Except.error`) or returns the decoded
payload. The result is the annotated request and the effects on `next` and `res`. -/
def Middleware.auth (verify : Option String → Except String Decoded)
    (authHeader : Option String) : Req × List GateEffect :=
  match authHeader with
  | none => ({ isAuth := false, userId := none }, [GateEffect.next none])
  | some h =>
    if h = "" then ({ isAuth := false, userId := none }, [GateEffect.next none])
    else
      match verify (bearerToken h) with
      | .error _ => ({ isAuth := false, userId := none }, [GateEffect.next none])
      | .ok decodedToken =>
        if !decodedToken.truthy then
          ({ isAuth := false, userId := none }, [GateEffect.next none])
        else
          ({ isAuth := true, userId := decodedToken.userId }, [GateEffect.next none])

/-! ## Collections -/

/-- Lookup `Model.findById(id)`: the document with that `_id`, if any. -/
def findPostById (ps : List Post) (id : ObjectId) : Option Post :=
  ps.find? (fun p => p._id == id)

/-- Lookup `User.findById(id)`; an `undefined` id finds nothing. -/
def findUserById (us : List User) : Option ObjectId → Option User
  | none => none
  | some id => us.find? (fun u => u._id == id)

/-- Write-back of `user.save()` for a document loaded from the collection: the stored document
with that `_id` is replaced. The User schema is not among the sources; a loaded user is taken
to pass its validators, which the handlers leave alone (they change `posts` and `status`). -/
def saveUser (u : User) : List User → List User
  | [] => []
  | x :: xs => if x._id = u._id then u :: xs else x :: saveUser u xs

/-- Write-back of `post.save()` for a document loaded from the collection. -/
def savePost (p : Post) : List Post → List Post
  | [] => []
  | x :: xs => if x._id = p._id then p :: xs else x :: savePost p xs

/-- Removal `Post.findByIdAndRemove(id)`: the document with that `_id` is removed. -/
def removePostById (id : ObjectId) : List Post → List Post
  | [] => []
  | x :: xs => if x._id = id then xs else x :: removePostById id xs

/-- Fresh ObjectId for a new document: above every id in the collections and every id issued
before, so never equal to an existing one and never reissued. -/
def newObjectId (s : State) : ObjectId :=
  ((s.users.map (fun u => u._id)) ++ (s.posts.map (fun p => p._id))).foldr max s.lastId + 1

/-- Validation run by `save()` on a post, new or loaded: the `required: true` paths of
`postSchema` that fail. Mongoose's required validator rejects the empty string (and a missing
creator); it runs on every required path, modified or not. -/
def Post.requiredPaths (title imageUrl content : String) (creator : Option ObjectId) :
    List String :=
  (if title = "" then ["title"] else []) ++
  (if imageUrl = "" then ["imageUrl"] else []) ++
  (if content = "" then ["content"] else []) ++
  (if creator = none then ["creator"] else [])

/-- Resolution of the `creator` reference by `.populate("creator")` and serialisation. -/
def populate (us : List User) (p : Post) : PostDoc :=
  { _id := p._id, title := p.title, imageUrl := p.imageUrl, content := p.content,
    creator := findUserById us (some p.creator),
    createdAt := p.createdAt, updatedAt := p.updatedAt }

/-- Order of `.sort({ createdAt: -1 })`: newest first. -/
def newerFirst (a b : Post) : Prop := b.createdAt ≤ a.createdAt

instance : DecidableRel newerFirst := fun a b => inferInstanceAs (Decidable (b.createdAt ≤ a.createdAt))

instance : IsTotal Post newerFirst := ⟨fun a b => Nat.le_total b.createdAt a.createdAt⟩

instance : IsTrans Post newerFirst := ⟨fun _ _ _ h1 h2 => Nat.le_trans h2 h1⟩

/-- All posts in the order of `Post.find().sort({ createdAt: -1 })`. -/
def sortByCreatedAtDesc (ps : List Post) : List Post :=
  ps.insertionSort newerFirst

/-- Deletion of an image file, `clearImage` of `util/file.js` (and of `controllers/feed.js`):
an `fs.unlink` is issued for `path.join(__dirname, "..", filePath)`; its outcome is only
logged. The state records the `filePath` of each request. -/
def clearImage (filePath : String) (s : State) : State :=
  { s with unlinked := s.unlinked ++ [filePath] }

/-! ## graphql/resolvers.js -/

/-- The `postInput` argument of `createPost` and `updatePost`. -/
structure PostInput where
  title : String
  content : String
  imageUrl : String
deriving DecidableEq, Repr

/-- The value returned by the `posts` resolver. -/
structure PostData where
  posts : List PostDoc
  totalPosts : Nat
deriving DecidableEq, Repr

/-- A resolver run: the value returned or the error thrown, and the stores afterwards. -/
abbrev Resolver (α : Type) := State → Except Thrown α × State

/-- The error thrown by every guarded resolver when `req.isAuth` is false. -/
def notAuthenticated : Thrown :=
  .error { message := "Not authenticated!", code := some 401, statusCode := none, data := [] }

/-- The error of a failed ownership check. -/
def notAuthorized : Thrown :=
  .error { message := "Not authorized!", code := some 403, statusCode := none, data := [] }

/-- The error for a post id that resolves to nothing. -/
def noPostFound : Thrown :=
  .error { message := "No post found!", code := some 404, statusCode := none, data := [] }

/-- The error for a user id that resolves to nothing (`user`, `updateStatus`). -/
def noUserFound : Thrown :=
  .error { message := "No user found!", code := some 404, statusCode := none, data := [] }

/-- The error thrown when the collected validation messages are not empty. -/
def invalidInput (errors : List String) : Thrown :=
  .error { message := "Invalid input.", code := some 422, statusCode := none, data := errors }

/-- The length that `validator.isLength` compares with `min`: `str.length` minus the number of
surrogate pairs minus the number of variation selectors U+FE0F and U+FE0E, that is the number
of characters that are not one of these two selectors. -/
def validatorLength (str : String) : Nat :=
  (str.toList.filter (fun c => c != Char.ofNat 0xFE0F && c != Char.ofNat 0xFE0E)).length

/-- The validation block shared by `createPost` and `updatePost`: `validator.isEmpty` is
"length 0" and `validator.isLength(·, { min: 5 })` is "`validatorLength` at least 5". -/
def validatePostInput (postInput : PostInput) : List String :=
  (if postInput.title.length = 0 ∨ ¬ (5 ≤ validatorLength postInput.title)
    then ["Title is invalid."] else []) ++
  (if postInput.content.length = 0 ∨ ¬ (5 ≤ validatorLength postInput.content)
    then ["Content is invalid."] else [])

namespace Resolvers

/-- Resolver `createPost({ postInput }, req)`; `now` is the clock reading at `post.save()`. -/
def createPost (postInput : PostInput) (req : Req) (now : Nat) : Resolver PostDoc := fun s =>
  if !req.isAuth then (.error notAuthenticated, s)
  else
    let errors := validatePostInput postInput
    if errors.length > 0 then (.error (invalidInput errors), s)
    else
      match findUserById s.users req.userId with
      | none =>
        (.error (.error { message := "Invalid user.", code := some 401, statusCode := none,
                          data := [] }), s)
      | some user =>
        let post : Post :=
          { _id := newObjectId s, title := postInput.title, imageUrl := postInput.imageUrl,
            content := postInput.content, creator := user._id,
            createdAt := now, updatedAt := now }
        match Post.requiredPaths post.title post.imageUrl post.content (some post.creator) with
        | p :: ps => (.error (.validationError (p :: ps)), s)
        | [] =>
          let s1 : State := { s with posts := s.posts ++ [post], lastId := post._id }
          let user1 : User := { user with posts := user.posts ++ [post._id] }
          let s2 : State := { s1 with users := saveUser user1 s1.users }
          (.ok { _id := post._id, title := post.title, imageUrl := post.imageUrl,
                 content := post.content, creator := some user1,
                 createdAt := post.createdAt, updatedAt := post.updatedAt }, s2)

/-- Resolver `posts({ page }, req)`; `page` is the optional GraphQL `Int` argument. -/
def posts (page : Option Int) (req : Req) : Resolver PostData := fun s =>
  if !req.isAuth then (.error notAuthenticated, s)
  else
    let page : Int := match page with
      | none => 1
      | some p => if p = 0 then 1 else p
    let perPage : Int := 2
    let totalPosts := s.posts.length
    let skip : Int := (page - 1) * perPage
    if skip < 0 then (.error .mongoError, s)
    else
      let found := ((sortByCreatedAtDesc s.posts).drop skip.toNat).take perPage.toNat
      (.ok { posts := found.map (populate s.users), totalPosts := totalPosts }, s)

/-- Resolver `post({ id }, req)`. -/
def post (id : ObjectId) (req : Req) : Resolver PostDoc := fun s =>
  if !req.isAuth then (.error notAuthenticated, s)
  else
    match findPostById s.posts id with
    | none => (.error noPostFound, s)
    | some p => (.ok (populate s.users p), s)

/-- Resolver `updatePost({ id, postInput }, req)`; `now` is the clock reading at `post.save()`.
The `updatedAt` stamp moves only when a path was modified. -/
def updatePost (id : ObjectId) (postInput : PostInput) (req : Req) (now : Nat) :
    Resolver PostDoc := fun s =>
  if !req.isAuth then (.error notAuthenticated, s)
  else
    match findPostById s.posts id with
    | none => (.error noPostFound, s)
    | some post =>
      match findUserById s.users (some post.creator), req.userId with
      | none, _ => (.error .typeError, s)
      | some _, none => (.error .typeError, s)
      | some creator, some userId =>
        if creator._id ≠ userId then (.error notAuthorized, s)
        else
          let errors := validatePostInput postInput
          if errors.length > 0 then (.error (invalidInput errors), s)
          else
            let edited : Post :=
              { post with
                title := postInput.title, content := postInput.content,
                imageUrl := if postInput.imageUrl ≠ "undefined" then postInput.imageUrl
                            else post.imageUrl }
            match Post.requiredPaths edited.title edited.imageUrl edited.content
                    (some edited.creator) with
            | p :: ps => (.error (.validationError (p :: ps)), s)
            | [] =>
              let updatedPost : Post :=
                { edited with updatedAt := if edited = post then post.updatedAt else now }
              let s1 : State := { s with posts := savePost updatedPost s.posts }
              (.ok { _id := updatedPost._id, title := updatedPost.title,
                     imageUrl := updatedPost.imageUrl, content := updatedPost.content,
                     creator := some creator, createdAt := updatedPost.createdAt,
                     updatedAt := updatedPost.updatedAt }, s1)

/-- Resolver `deletePost({ id }, req)`. -/
def deletePost (id : ObjectId) (req : Req) : Resolver Bool := fun s =>
  if !req.isAuth then (.error notAuthenticated, s)
  else
    match findPostById s.posts id with
    | none => (.error noPostFound, s)
    | some post =>
      match req.userId with
      | none => (.error .typeError, s)
      | some userId =>
        if post.creator ≠ userId then (.error notAuthorized, s)
        else
          let s1 := clearImage post.imageUrl s
          let s2 : State := { s1 with posts := removePostById id s1.posts }
          match findUserById s2.users req.userId with
          | none => (.error .typeError, s2)
          | some user =>
            let user1 : User := { user with posts := user.posts.filter (fun r => r != id) }
            (.ok true, { s2 with users := saveUser user1 s2.users })

/-- Resolver `user(args, req)`. -/
def user (req : Req) : Resolver User := fun s =>
  if !req.isAuth then (.error notAuthenticated, s)
  else
    match findUserById s.users req.userId with
    | none => (.error noUserFound, s)
    | some u => (.ok u, s)

/-- Resolver `updateStatus({ status }, req)`. -/
def updateStatus (status : String) (req : Req) : Resolver User := fun s =>
  if !req.isAuth then (.error notAuthenticated, s)
  else
    match findUserById s.users req.userId with
    | none => (.error noUserFound, s)
    | some u =>
      let u1 : User := { u with status := status }
      (.ok u1, { s with users := saveUser u1 s.users })

end Resolvers

/-! ## controllers/feed.js -/

/-- Modelled from the spec: the Notifier behind `io.getIO().emit(eventName, payload)` (the
socket module is not among the sources): a fire-and-forget publish, recorded in the log. -/
def emit (event : String) (payload : Notification) (s : State) : State :=
  { s with emitted := s.emitted ++ [(event, payload)] }

namespace Feed

/-- The request as the REST controllers read it: `req.userId`, the outcome of
`validationResult(req)`, `req.file.path`, the body fields and `req.params.postId`. -/
structure FeedReq where
  userId : Option ObjectId
  validationErrors : List String
  filePath : Option String
  title : String
  content : String
  image : Option String
  postId : ObjectId
deriving DecidableEq, Repr

/-- How a controller run ends. -/
inductive Outcome where
  /-- Response `res.status(status).json({ message, ... })` -/
  | json (status : Nat) (message : String)
  /-- Error handed to `next(err)` by the `catch` block, with `err.statusCode` as set there -/
  | next (err : Thrown) (statusCode : Nat)
  /-- Error thrown outside the `try` block: the handler's promise is rejected -/
  | rejected (err : Thrown)
deriving DecidableEq, Repr

/-- A run succeeded when it ended in a JSON response (the controllers send 200 or 201). -/
def Outcome.succeeded : Outcome → Bool
  | .json _ _ => true
  | .next _ _ => false
  | .rejected _ => false

/-- An `Error` with the given message and `statusCode`, as the controllers build it. -/
def httpError (message : String) (statusCode : Nat) : Thrown :=
  .error { message := message, code := none, statusCode := some statusCode, data := [] }

/-- The `catch (err)` block: `err.statusCode` defaults to 500, then `next(err)`. -/
def passToNext : Thrown → Outcome
  | .error e =>
    match e.statusCode with
    | some c => if c = 0 then .next (.error { e with statusCode := some 500 }) 500
                else .next (.error e) c
    | none => .next (.error { e with statusCode := some 500 }) 500
  | t => .next t 500

/-- Controller `createPost(req, res, next)`; `now` is the clock reading at `post.save()`. -/
def createPost (req : FeedReq) (now : Nat) (s : State) : Outcome × State :=
  if req.validationErrors ≠ [] then
    (.rejected (httpError "Validation failed, entered data is incorrect." 422), s)
  else
    match req.filePath with
    | none => (.rejected (httpError "No image provided." 422), s)
    | some imageUrl =>
      match req.userId with
      | none =>
        (passToNext (.validationError
          (Post.requiredPaths req.title imageUrl req.content none)), s)
      | some userId =>
        match Post.requiredPaths req.title imageUrl req.content (some userId) with
        | p :: ps => (passToNext (.validationError (p :: ps)), s)
        | [] =>
          let post : Post :=
            { _id := newObjectId s, title := req.title, imageUrl := imageUrl,
              content := req.content, creator := userId, createdAt := now, updatedAt := now }
          let s1 : State := { s with posts := s.posts ++ [post], lastId := post._id }
          match findUserById s1.users req.userId with
          | none => (passToNext .typeError, s1)
          | some user =>
            let user1 : User := { user with posts := user.posts ++ [post._id] }
            let s2 : State := { s1 with users := saveUser user1 s1.users }
            let s3 := emit "posts" (.create post req.userId user.name) s2
            (.json 201 "Post created successfully!", s3)

/-- Controller `updatePost(req, res, next)`; `now` is the clock reading at `post.save()`. -/
def updatePost (req : FeedReq) (now : Nat) (s : State) : Outcome × State :=
  if req.validationErrors ≠ [] then
    (.rejected (httpError "Validation failed, entered data is incorrect." 422), s)
  else
    let picked : Option String := match req.filePath with
      | some path => some path
      | none => req.image
    match picked with
    | none => (.rejected (httpError "No file picked." 422), s)
    | some imageUrl =>
      if imageUrl = "" then (.rejected (httpError "No file picked." 422), s)
      else
        match findPostById s.posts req.postId with
        | none => (passToNext (httpError "Could not find post." 404), s)
        | some post =>
          match findUserById s.users (some post.creator) with
          | none => (passToNext .typeError, s)
          | some creator =>
            if some creator._id ≠ req.userId then (passToNext (httpError "Not authorized!" 403), s)
            else
              let s1 := if imageUrl ≠ post.imageUrl then clearImage post.imageUrl s else s
              let edited : Post :=
                { post with title := req.title, imageUrl := imageUrl, content := req.content }
              match Post.requiredPaths edited.title edited.imageUrl edited.content
                    (some edited.creator) with
              | p :: ps => (passToNext (.validationError (p :: ps)), s1)
              | [] =>
                let result : Post :=
                  { edited with updatedAt := if edited = post then post.updatedAt else now }
                let s2 : State := { s1 with posts := savePost result s1.posts }
                let s3 := emit "posts" (.update
                  { _id := result._id, title := result.title, imageUrl := result.imageUrl,
                    content := result.content, creator := some creator,
                    createdAt := result.createdAt, updatedAt := result.updatedAt }) s2
                (.json 200 "Post updated!", s3)

/-- Controller `deletePost(req, res, next)`. -/
def deletePost (req : FeedReq) (s : State) : Outcome × State :=
  match findPostById s.posts req.postId with
  | none => (passToNext (httpError "Could not find post." 404), s)
  | some post =>
    if some post.creator ≠ req.userId then (passToNext (httpError "Not authorized!" 403), s)
    else
      let s1 := clearImage post.imageUrl s
      let s2 : State := { s1 with posts := removePostById req.postId s1.posts }
      match findUserById s2.users req.userId with
      | none => (passToNext .typeError, s2)
      | some user =>
        let user1 : User :=
          { user with posts := user.posts.filter (fun r => r != req.postId) }
        let s3 : State := { s2 with users := saveUser user1 s2.users }
        let s4 := emit "posts" (.delete req.postId) s3
        (.json 200 "Deleted post.", s4)

end Feed

/-! ## graphql/resolvers.js: signup -/

/-- The `userInput` argument of `createUser`. -/
structure UserInput where
  email : String
  name : String
  password : String
deriving DecidableEq, Repr

/-- What `createUser` calls outside the sources: `validator.isEmail`, which rejects the empty
string, and `bcrypt.hash(·, 12)`. -/
structure SignupLibs where
  isEmail : String → Bool
  hash : String → String
  isEmail_empty : isEmail "" = false

/-- Modelled from the spec: the validators of the User schema of `models/user.js` (that file
is not among the sources). The spec calls `email` and `name` required; as for `postSchema`, a
required string path rejects the empty string. The result lists the paths that fail. -/
def User.requiredPaths (email name : String) : List String :=
  (if email = "" then ["email"] else []) ++
  (if name = "" then ["name"] else [])

/-- The error of a signup with an e-mail address that is already registered; no `code`. -/
def userExists : Thrown :=
  .error { message := "User exists already!", code := none, statusCode := none, data := [] }

/-- Lookup `User.findOne({ email: email })`. -/
def findUserByEmail (us : List User) (email : String) : Option User :=
  us.find? (fun u => u.email == email)

/-- The validation block of `createUser`. -/
def validateUserInput (libs : SignupLibs) (userInput : UserInput) : List String :=
  (if !libs.isEmail userInput.email then ["E-Mail is invalid."] else []) ++
  (if userInput.password.length = 0 ∨ ¬ (5 ≤ validatorLength userInput.password)
    then ["Password too short!"] else [])

namespace Resolvers

/-- Resolver `createUser({ userInput }, req)`. Modelled from the spec: the new User document
starts with the default status and an empty `posts` list. -/
def createUser (libs : SignupLibs) (userInput : UserInput) : Resolver User := fun s =>
  let errors := validateUserInput libs userInput
  if errors.length > 0 then (.error (invalidInput errors), s)
  else
    match findUserByEmail s.users userInput.email with
    | some _ => (.error userExists, s)
    | none =>
      let hashedPw := libs.hash userInput.password
      let user : User :=
        { _id := newObjectId s, email := userInput.email, name := userInput.name,
          password := hashedPw, status := "I am new!", posts := [] }
      match User.requiredPaths user.email user.name with
      | p :: ps => (.error (.validationError (p :: ps)), s)
      | [] => (.ok user, { s with users := s.users ++ [user], lastId := user._id })

end Resolvers

/-- A run of signups, one after the other, whatever their outcome. -/
def runSignups (libs : SignupLibs) (inputs : List UserInput) (s : State) : State :=
  inputs.foldl (fun st userInput => (Resolvers.createUser libs userInput st).2) s

/-- No two stored users share an e-mail address. -/
def State.EmailsUnique (s : State) : Prop :=
  (s.users.map (fun u => u.email)).Nodup

instance (s : State) : Decidable s.EmailsUnique := by
  unfold State.EmailsUnique
  infer_instance

/-! ## app.js -/

namespace App

/-- What the client gets for a failed GraphQL operation. -/
structure FormattedError where
  message : String
  status : Nat
  data : List String
deriving DecidableEq, Repr

/-- The `formatError(err)` hook for an error thrown by a resolver (`err.originalError`):
`status` is `code || 500`, `message` is `err.message || "An error occurred."`. -/
def formatError (e : JsError) : FormattedError :=
  { message := if e.message = "" then "An error occurred." else e.message,
    status := match e.code with
      | none => 500
      | some c => if c = 0 then 500 else c,
    data := e.data }

/-- The `image` part of a multipart request, as multer sees it: its content type and the path
it gets under `images/` when stored. -/
structure Upload where
  mimetype : String
  path : String
deriving DecidableEq, Repr

/-- The allow-list `fileFilter` of multer. -/
def fileFilter (file : Upload) : Bool :=
  file.mimetype == "image/png" || file.mimetype == "image/jpg" || file.mimetype == "image/jpeg"

/-- A `PUT /post-image` request after the auth middleware: `req.isAuth`, the uploaded part (if
any) and `req.body.oldPath`. -/
structure ImageReq where
  isAuth : Bool
  image : Option Upload
  oldPath : Option String
deriving DecidableEq, Repr

/-- The value of `req.file` after `multer(...).single("image")`: the path of the uploaded part if
the filter accepted it, nothing otherwise. -/
def ImageReq.file (req : ImageReq) : Option String :=
  match req.image with
  | none => none
  | some f => if fileFilter f then some f.path else none

/-- A JSON response: status, `message`, and `filePath` or `data` when the body has them. -/
structure Response where
  status : Nat
  message : String
  filePath : Option String
  data : List String
deriving DecidableEq, Repr

/-- The route handler `app.put("/post-image", ...)`: it throws or answers. -/
def postImage (req : ImageReq) (s : State) : Except JsError Response × State :=
  if !req.isAuth then
    (.error { message := "Not authenticated!", code := none, statusCode := none, data := [] }, s)
  else
    match req.file with
    | none =>
      (.ok { status := 200, message := "No file provided!", filePath := none, data := [] }, s)
    | some path =>
      let s1 := match req.oldPath with
        | none => s
        | some oldPath => if oldPath = "" then s else clearImage oldPath s
      (.ok { status := 201, message := "File stored.", filePath := some path, data := [] }, s1)

/-- The global error handler: `status` is `error.statusCode || 500`. -/
def errorHandler (error : JsError) : Response :=
  { status := match error.statusCode with
      | none => 500
      | some c => if c = 0 then 500 else c,
    message := error.message, filePath := none, data := error.data }

/-- What the client of `PUT /post-image` gets: the answer of the route, or the answer of the
global error handler when the route throws. -/
def putPostImage (req : ImageReq) (s : State) : Response × State :=
  match postImage req s with
  | (.ok res, s1) => (res, s1)
  | (.error e, s1) => (errorHandler e, s1)

end App

/-! ## Runs of resolver calls -/

/-- A call of one of the mutating resolvers, with its arguments and its request. -/
inductive Call where
  | createUser (libs : SignupLibs) (userInput : UserInput)
  | createPost (postInput : PostInput) (req : Req) (now : Nat)
  | updatePost (id : ObjectId) (postInput : PostInput) (req : Req) (now : Nat)
  | deletePost (id : ObjectId) (req : Req)
  | updateStatus (status : String) (req : Req)

/-- The stores after a call, whether it succeeded or failed. -/
def Call.run : Call → State → State
  | .createUser libs userInput, s => (Resolvers.createUser libs userInput s).2
  | .createPost postInput req now, s => (Resolvers.createPost postInput req now s).2
  | .updatePost id postInput req now, s => (Resolvers.updatePost id postInput req now s).2
  | .deletePost id req, s => (Resolvers.deletePost id req s).2
  | .updateStatus status req, s => (Resolvers.updateStatus status req s).2

/-- The stores after a sequence of calls. -/
def runCalls (calls : List Call) (s : State) : State :=
  calls.foldl (fun st c => c.run st) s

/-- The empty stores. -/
def emptyState : State :=
  { users := [], posts := [], unlinked := [], emitted := [], lastId := 0 }

/-! ## Integrity of the collections -/

/-- Integrity that MongoDB and the schemas maintain: `_id` is unique within each collection,
the `creator` reference of every post resolves to a stored user, and every stored post passes
the validators of `postSchema`. -/
def State.Consistent (s : State) : Prop :=
  (s.posts.map (fun p => p._id)).Nodup ∧
  (s.users.map (fun u => u._id)).Nodup ∧
  (∀ p ∈ s.posts, ∃ u ∈ s.users, u._id = p.creator) ∧
  ∀ p ∈ s.posts, Post.requiredPaths p.title p.imageUrl p.content (some p.creator) = []

instance (s : State) : Decidable s.Consistent := by
  unfold State.Consistent
  infer_instance

/-- What the lockstep of back-references reads of a user: its id and its `posts` list. -/
def userKey (u : User) : ObjectId × List ObjectId := (u._id, u.posts)

/-- What the lockstep of back-references reads of a post: its id and its creator. -/
def postKey (p : Post) : ObjectId × ObjectId := (p._id, p.creator)

/-- The back-references are in lockstep with the posts: the `posts` list of every user has no
repetition, every id in it is the id of a stored post created by that user, and every stored
post created by that user is in it. -/
def State.Lockstep (s : State) : Prop :=
  ∀ u ∈ s.users,
    u.posts.Nodup ∧
    (∀ id ∈ u.posts, ∃ p ∈ s.posts, p._id = id ∧ p.creator = u._id) ∧
    (∀ p ∈ s.posts, p.creator = u._id → p._id ∈ u.posts)

instance (s : State) : Decidable s.Lockstep := by
  unfold State.Lockstep
  infer_instance

/-! ## Sample stores used by the concrete instances -/

/-- A user who authored post 10. -/
def alice : User :=
  { _id := 1, email := "a@b.com", password := "hash", name := "Alice", status := "I am new!",
    posts := [10] }

/-- A user who authored post 11. -/
def bob : User :=
  { _id := 2, email := "b@b.com", password := "hash", name := "Bob", status := "I am new!",
    posts := [11] }

/-- The post of `alice`. -/
def post10 : Post :=
  { _id := 10, title := "First", imageUrl := "images/a.png", content := "Hello", creator := 1,
    createdAt := 100, updatedAt := 100 }

/-- The post of `bob`. -/
def post11 : Post :=
  { _id := 11, title := "Second", imageUrl := "images/b.png", content := "World", creator := 2,
    createdAt := 200, updatedAt := 200 }

/-- A store with two users and one post each. -/
def sampleState : State :=
  { users := [alice, bob], posts := [post10, post11], unlinked := [], emitted := [],
    lastId := 11 }

/-- A plain e-mail test for the concrete instances: one `@`, something before it, a dot
after it. -/
def plainIsEmail (email : String) : Bool :=
  match email.toList.span (fun c => c != '@') with
  | (name, _ :: domain) => !name.isEmpty && domain.contains '.' && !domain.contains '@'
  | (_, []) => false

/-- Collaborators for the concrete instances: the plain e-mail test and a tagging stand-in for
the hash. -/
def sampleLibs : SignupLibs :=
  { isEmail := plainIsEmail,
    hash := fun password => "hashed:" ++ password,
    isEmail_empty := by decide }

/-- A token check for the concrete instances: the token "good" carries user 1, every other
token and a missing token are refused. -/
def sampleVerify (token : Option String) : Except String Decoded :=
  if token = some "good" then .ok (.object (some 1)) else .error "invalid token"

/-- A signup of Ann followed by her first post, for the concrete instances. -/
def sampleCalls : List Call :=
  [Call.createUser sampleLibs { email := "a@b.com", name := "Ann", password := "abcde" },
   Call.createPost { title := "Title", content := "Hello", imageUrl := "images/c.png" }
     { isAuth := true, userId := some 1 } 300]

/-! ## Theorems -/

/-- A piece without a space is the only piece of its split. -/
theorem splitOnSpace_word (w : List Char) (hw : ' ' ∉ w) : splitOnSpace w = [w] := by
  induction w with
  | nil => rfl
  | cons c cs ih =>
    have hc : c ≠ ' ' := fun e => hw (e ▸ List.mem_cons_self _ _)
    have := ih (fun h => hw (List.mem_cons_of_mem _ h))
    simp [splitOnSpace, hc, this]

/-- A piece without a space, followed by a space, is the first piece of the split. -/
theorem splitOnSpace_word_space (w t : List Char) (hw : ' ' ∉ w) :
    splitOnSpace (w ++ ' ' :: t) = w :: splitOnSpace t := by
  induction w with
  | nil => simp [splitOnSpace]
  | cons c cs ih =>
    have hc : c ≠ ' ' := fun e => hw (e ▸ List.mem_cons_self _ _)
    have := ih (fun h => hw (List.mem_cons_of_mem _ h))
    simp [splitOnSpace, hc, this]

/-- Splitting undoes joining: pieces without spaces, joined by single spaces, are what the
split returns. -/
theorem splitOnSpace_intercalate (w : List Char) (ws : List (List Char))
    (h : ∀ x ∈ w :: ws, ' ' ∉ x) :
    splitOnSpace ([' '].intercalate (w :: ws)) = w :: ws := by
  induction ws generalizing w with
  | nil => simpa [List.intercalate] using splitOnSpace_word w (h w (List.mem_cons_self _ _))
  | cons v vs ih =>
    have hw := h w (List.mem_cons_self _ _)
    have hrest := ih v (fun x hx => h x (List.mem_cons_of_mem _ hx))
    have hjoin : [' '].intercalate (w :: v :: vs) = w ++ ' ' :: [' '].intercalate (v :: vs) := by
      simp [List.intercalate, List.intersperse]
    rw [hjoin, splitOnSpace_word_space _ _ hw, hrest]

/-- Every text is made of pieces without spaces joined by single spaces. -/
theorem exists_pieces (l : List Char) :
    ∃ w ws, (∀ x ∈ w :: ws, ' ' ∉ x) ∧ l = [' '].intercalate (w :: ws) := by
  induction l with
  | nil => exact ⟨[], [], by simp, by simp [List.intercalate]⟩
  | cons c cs ih =>
    obtain ⟨w, ws, hp, hj⟩ := ih
    by_cases hc : c = ' '
    · refine ⟨[], w :: ws, ?_, ?_⟩
      · intro x hx
        rcases List.mem_cons.1 hx with h | h
        · subst h; simp
        · exact hp x h
      · rw [hc, hj]
        simp [List.intercalate, List.intersperse]
    · refine ⟨c :: w, ws, ?_, ?_⟩
      · intro x hx
        rcases List.mem_cons.1 hx with h | h
        · subst h
          intro hmem
          rcases List.mem_cons.1 hmem with h1 | h1
          · exact hc h1.symm
          · exact hp w (List.mem_cons_self _ _) h1
        · exact hp x (List.mem_cons_of_mem _ h)
      · rw [hj]
        cases ws <;> simp [List.intercalate, List.intersperse]

/-- The token read from a header is its second space-separated piece: when the header is made
of pieces without spaces joined by single spaces, the token is the second of them, and there
is none when the header is a single piece. -/
theorem bearerToken_second_piece (h : String) (w : List Char) (ws : List (List Char))
    (hpieces : ∀ x ∈ w :: ws, ' ' ∉ x) (hjoin : h.toList = [' '].intercalate (w :: ws)) :
    bearerToken h = (ws.head?).map String.mk := by
  unfold bearerToken
  rw [hjoin, splitOnSpace_intercalate w ws hpieces]
  cases ws <;> simp

/-- The header counts as present when it is there and not the empty string. -/
theorem headerPresent_iff (authHeader : Option String) :
    headerPresent authHeader = true ↔ ∃ h, authHeader = some h ∧ h ≠ "" := by
  cases authHeader with
  | none => simp [headerPresent]
  | some h => simp [headerPresent]

/-- A decoded token is truthy when it is an object or a non-empty string. -/
theorem truthy_iff (d : Decoded) :
    d.truthy = true ↔ (∃ u, d = .object u) ∨ ∃ t, d = .text t ∧ t ≠ "" := by
  cases d with
  | object u => simp [Decoded.truthy]
  | text t => simp [Decoded.truthy]
  | nullish => simp [Decoded.truthy]

/-- What the auth middleware does, in terms of the token it reads from the header. -/
theorem auth_gate_core (verify : Option String → Except String Decoded)
    (authHeader : Option String) :
    (Middleware.auth verify authHeader).2 = [GateEffect.next none] ∧
    ((Middleware.auth verify authHeader).1.isAuth = true ↔
      headerPresent authHeader = true ∧
        ∃ h d, authHeader = some h ∧ verify (bearerToken h) = .ok d ∧ d.truthy = true) ∧
    ((Middleware.auth verify authHeader).1.isAuth = false ↔
      ¬ (headerPresent authHeader = true ∧
        ∃ h d, authHeader = some h ∧ verify (bearerToken h) = .ok d ∧ d.truthy = true)) ∧
    (∀ h d, authHeader = some h ∧ verify (bearerToken h) = .ok d ∧
        (Middleware.auth verify authHeader).1.isAuth = true →
      (Middleware.auth verify authHeader).1.userId = d.userId) := by
  cases authHeader with
  | none => simp [Middleware.auth, headerPresent]
  | some h =>
    by_cases hh : h = ""
    · simp [Middleware.auth, headerPresent, hh]
    · cases hv : verify (bearerToken h) with
      | error e => simp [Middleware.auth, headerPresent, hh, hv]
      | ok d =>
        cases ht : d.truthy
        · simp [Middleware.auth, headerPresent, hh, hv, ht]
        · simp only [Middleware.auth, headerPresent, hh, hv, ht]
          refine ⟨rfl, by simp [hh, hv, ht], by simp [hh, hv, ht], ?_⟩
          rintro h1 d1 ⟨e1, e2, -⟩
          cases e1
          rw [hv] at e2
          cases e2
          rfl

/-- C1: the auth middleware calls `next()` exactly once, without an error and without writing
a response; `isAuth` is true exactly when the header is present and verification of its second
space-separated piece succeeds with a truthy decoded payload; then `req.userId` is the `userId`
of that payload, and in every other case `isAuth` is false. The second space-separated piece is
`bearerToken`: every header is made of pieces without spaces joined by single spaces; the
token is the second of them, and `undefined` when there is only one. A payload is truthy when
it is an object or a non-empty string. -/
theorem auth_gate_annotates (verify : Option String → Except String Decoded)
    (authHeader : Option String) :
    (Middleware.auth verify authHeader).2 = [GateEffect.next none] ∧
    ((Middleware.auth verify authHeader).1.isAuth = true ↔
      headerPresent authHeader = true ∧
        ∃ h d, authHeader = some h ∧ verify (bearerToken h) = .ok d ∧ d.truthy = true) ∧
    ((Middleware.auth verify authHeader).1.isAuth = false ↔
      ¬ (headerPresent authHeader = true ∧
        ∃ h d, authHeader = some h ∧ verify (bearerToken h) = .ok d ∧ d.truthy = true)) ∧
    (∀ h d, authHeader = some h ∧ verify (bearerToken h) = .ok d ∧
        (Middleware.auth verify authHeader).1.isAuth = true →
      (Middleware.auth verify authHeader).1.userId = d.userId) ∧
    (∀ (h : String) (w : List Char) (ws : List (List Char)),
      (∀ x ∈ w :: ws, ' ' ∉ x) → h.toList = [' '].intercalate (w :: ws) →
      bearerToken h = (ws.head?).map String.mk) ∧
    (∀ h : String, ∃ w ws, (∀ x ∈ w :: ws, ' ' ∉ x) ∧ h.toList = [' '].intercalate (w :: ws)) ∧
    (headerPresent authHeader = true ↔ ∃ h, authHeader = some h ∧ h ≠ "") ∧
    (∀ d : Decoded, d.truthy = true ↔ (∃ u, d = .object u) ∨ ∃ t, d = .text t ∧ t ≠ "") ∧
    (∀ u, (Decoded.object u).userId = u) := by
  exact ⟨(auth_gate_core verify authHeader).1, (auth_gate_core verify authHeader).2.1,
    (auth_gate_core verify authHeader).2.2.1, (auth_gate_core verify authHeader).2.2.2,
    fun h w ws hp hj => bearerToken_second_piece h w ws hp hj,
    fun h => exists_pieces h.toList,
    headerPresent_iff authHeader, truthy_iff, fun _ => rfl⟩

/-- C1, concrete instances: the header "Bearer good" authenticates user 1, its token being the
second piece "good"; the header "Bearer" has no second piece and does not authenticate; a
request without the header does not authenticate. -/
theorem auth_gate_annotates_witness :
    bearerToken "Bearer good" = some "good" ∧ bearerToken "Bearer" = none ∧
    Middleware.auth sampleVerify (some "Bearer good") =
      ({ isAuth := true, userId := some 1 }, [GateEffect.next none]) ∧
    (Middleware.auth sampleVerify (some "Bearer")).1.isAuth = false ∧
    (Middleware.auth sampleVerify (some "Bearer bad")).1.isAuth = false ∧
    (Middleware.auth sampleVerify none).1.isAuth = false := by
  have hgood := auth_gate_annotates sampleVerify (some "Bearer good")
  have htok : bearerToken "Bearer good" = some "good" :=
    hgood.2.2.2.2.1 "Bearer good" "Bearer".toList ["good".toList] (by decide) (by decide)
  have hnone : bearerToken "Bearer" = none :=
    hgood.2.2.2.2.1 "Bearer" "Bearer".toList [] (by decide) (by decide)
  have hauth : (Middleware.auth sampleVerify (some "Bearer good")).1.isAuth = true :=
    hgood.2.1.2 ⟨by decide, "Bearer good", .object (some 1), rfl, by rw [htok]; rfl, rfl⟩
  have huid : (Middleware.auth sampleVerify (some "Bearer good")).1.userId = some 1 :=
    hgood.2.2.2.1 "Bearer good" (.object (some 1)) ⟨rfl, by rw [htok]; rfl, hauth⟩
  refine ⟨htok, hnone, ?_, ?_, ?_, ?_⟩
  · refine Prod.ext ?_ hgood.1
    cases hreq : (Middleware.auth sampleVerify (some "Bearer good")).1 with
    | mk isAuth userId =>
      rw [hreq] at hauth huid
      simp only at hauth huid
      rw [hauth, huid]
  · refine (auth_gate_annotates sampleVerify (some "Bearer")).2.2.1.2 ?_
    rintro ⟨_, h, d, he, hv, _⟩
    cases he
    rw [hnone] at hv
    simp [sampleVerify] at hv
  · refine (auth_gate_annotates sampleVerify (some "Bearer bad")).2.2.1.2 ?_
    rintro ⟨_, h, d, he, hv, _⟩
    cases he
    have hbad : bearerToken "Bearer bad" = some "bad" :=
      hgood.2.2.2.2.1 "Bearer bad" "Bearer".toList ["bad".toList] (by decide) (by decide)
    rw [hbad] at hv
    simp [sampleVerify] at hv
  · refine (auth_gate_annotates sampleVerify none).2.2.1.2 ?_
    rintro ⟨hp, _⟩
    simp [headerPresent] at hp

/-- C2: with `req.isAuth` false, each of `createPost`, `posts`, `post`, `updatePost`,
`deletePost`, `user` and `updateStatus` fails, for every argument and every state, with the
error "Not authenticated!" carrying code 401, and leaves all stores as they were. -/
theorem unauthenticated_rejected (req : Req) (s : State) (h : req.isAuth = false) :
    let e : Thrown := .error { message := "Not authenticated!", code := some 401,
                               statusCode := none, data := [] }
    (∀ postInput now, Resolvers.createPost postInput req now s = (.error e, s)) ∧
    (∀ page, Resolvers.posts page req s = (.error e, s)) ∧
    (∀ id, Resolvers.post id req s = (.error e, s)) ∧
    (∀ id postInput now, Resolvers.updatePost id postInput req now s = (.error e, s)) ∧
    (∀ id, Resolvers.deletePost id req s = (.error e, s)) ∧
    Resolvers.user req s = (.error e, s) ∧
    (∀ status, Resolvers.updateStatus status req s = (.error e, s)) := by
  simp [Resolvers.createPost, Resolvers.posts, Resolvers.post, Resolvers.updatePost,
    Resolvers.deletePost, Resolvers.user, Resolvers.updateStatus, h, notAuthenticated]

/-- C2, concrete instance: an anonymous request against the sample store. -/
theorem unauthenticated_rejected_witness :
    ({ isAuth := false, userId := some 1 } : Req).isAuth = false ∧
    Resolvers.deletePost 10 { isAuth := false, userId := some 1 } sampleState =
      (.error (.error { message := "Not authenticated!", code := some 401,
                        statusCode := none, data := [] }), sampleState) :=
  ⟨rfl, (unauthenticated_rejected { isAuth := false, userId := some 1 } sampleState rfl).2.2.2.2.1 10⟩

/-- A window of two elements is made of the elements at its two positions, where they exist. -/
theorem take_two_eq {α : Type} (l : List α) (k : Nat) :
    (l.drop k).take 2 = (l[k]?).toList ++ (l[k+1]?).toList := by
  have h0 : l[k]? = (l.drop k)[0]? := by simp [List.getElem?_drop]
  have h1 : l[k+1]? = (l.drop k)[1]? := by simp [List.getElem?_drop]
  rw [h0, h1]
  generalize l.drop k = m
  match m with
  | [] => rfl
  | [a] => rfl
  | a :: b :: t => simp

/-- The sorted list is ordered newest first. -/
theorem sortByCreatedAtDesc_sorted (ps : List Post) :
    (sortByCreatedAtDesc ps).Pairwise newerFirst :=
  List.sorted_insertionSort newerFirst ps

/-- Sorting keeps exactly the posts of the collection. -/
theorem sortByCreatedAtDesc_perm (ps : List Post) : (sortByCreatedAtDesc ps).Perm ps :=
  List.perm_insertionSort newerFirst ps

/-- A page cut out of the sorted list is still ordered, also after `populate`. -/
theorem page_sorted (us : List User) (ps : List Post) (k n : Nat) :
    ((((sortByCreatedAtDesc ps).drop k).take n).map (populate us)).Pairwise
      (fun a b => b.createdAt ≤ a.createdAt) := by
  rw [List.pairwise_map]
  have h := sortByCreatedAtDesc_sorted ps
  exact (h.sublist (List.drop_sublist k _)).sublist (List.take_sublist n _)

/-- C3: for every store and every page argument, whatever an authenticated `posts` returns has
at most 2 posts, ordered by `createdAt` descending, and a `totalPosts` equal to the number of
all posts in the store; it does return for an absent page and for every page that is not
negative, and it leaves the stores as they were. -/
theorem posts_at_most_two_sorted_total (page : Option Int) (req : Req) (s : State)
    (hauth : req.isAuth = true) :
    (∀ data, (Resolvers.posts page req s).1 = .ok data →
      data.posts.length ≤ 2 ∧
      data.posts.Pairwise (fun a b => b.createdAt ≤ a.createdAt) ∧
      data.totalPosts = s.posts.length) ∧
    ((∀ p, page = some p → 0 ≤ p) → ∃ data, (Resolvers.posts page req s).1 = .ok data) ∧
    (Resolvers.posts page req s).2 = s := by
  have hrun : Resolvers.posts page req s =
      if ((match page with
            | none => (1 : Int)
            | some p => if p = 0 then 1 else p) - 1) * 2 < 0 then (.error .mongoError, s)
      else
        (.ok { posts := (((sortByCreatedAtDesc s.posts).drop
                  (((match page with
                      | none => (1 : Int)
                      | some p => if p = 0 then 1 else p) - 1) * 2).toNat).take 2).map
                  (populate s.users),
               totalPosts := s.posts.length }, s) := by
    simp [Resolvers.posts, hauth]
  rw [hrun]
  refine ⟨?_, ?_, ?_⟩
  · intro data hd
    split at hd
    · simp at hd
    · simp only [Except.ok.injEq] at hd
      subst hd
      refine ⟨?_, page_sorted _ _ _ _, rfl⟩
      simp only [List.length_map, List.length_take]
      exact Nat.min_le_left _ _
  · intro hp
    have hskip : ¬ ((match page with
        | none => (1 : Int)
        | some p => if p = 0 then 1 else p) - 1) * 2 < 0 := by
      cases page with
      | none => simp
      | some p =>
        have := hp p rfl
        by_cases h0 : p = 0
        · simp [h0]
        · simp only [h0, if_false]; omega
    simp [hskip]
  · split <;> rfl

/-- C3, concrete instance: page 1 of the sample store. -/
theorem posts_at_most_two_sorted_total_witness :
    ({ isAuth := true, userId := some 1 } : Req).isAuth = true ∧
    ∃ data, (Resolvers.posts (some 1) { isAuth := true, userId := some 1 } sampleState).1
      = .ok data ∧ data.posts.length ≤ 2 ∧ data.totalPosts = 2 := by
  have h := posts_at_most_two_sorted_total (some 1) { isAuth := true, userId := some 1 }
    sampleState rfl
  obtain ⟨data, hd⟩ := h.2.1 (by intro p hp; cases hp; decide)
  exact ⟨rfl, data, hd, (h.1 data hd).1, (h.1 data hd).2.2⟩

/-- C4: for every store and every page `p ≥ 1`, an authenticated `posts` returns exactly the
posts at positions `(p-1)*2` and `(p-1)*2+1` (those that exist) of the list of all posts sorted
by `createdAt` descending, that is `sorted.drop((p-1)*2).take(2)`, with `creator` populated; an
absent page gives the same result as page 1. -/
theorem posts_page_window (p : Int) (req : Req) (s : State)
    (hauth : req.isAuth = true) (hp : 1 ≤ p) :
    (sortByCreatedAtDesc s.posts).Perm s.posts ∧
    (sortByCreatedAtDesc s.posts).Pairwise (fun a b => b.createdAt ≤ a.createdAt) ∧
    Resolvers.posts (some p) req s =
      (.ok { posts := (((sortByCreatedAtDesc s.posts).drop ((p.toNat - 1) * 2)).take 2).map
                        (populate s.users),
             totalPosts := s.posts.length }, s) ∧
    ((sortByCreatedAtDesc s.posts).drop ((p.toNat - 1) * 2)).take 2 =
      ((sortByCreatedAtDesc s.posts)[(p.toNat - 1) * 2]?).toList ++
      ((sortByCreatedAtDesc s.posts)[(p.toNat - 1) * 2 + 1]?).toList ∧
    Resolvers.posts none req s = Resolvers.posts (some 1) req s := by
  refine ⟨sortByCreatedAtDesc_perm _, sortByCreatedAtDesc_sorted _, ?_, take_two_eq _ _, ?_⟩
  · have h0 : p ≠ 0 := by omega
    have h1 : ¬ (p - 1) * 2 < 0 := by omega
    have h2 : ((p - 1) * 2).toNat = (p.toNat - 1) * 2 := by omega
    simp [Resolvers.posts, hauth, h0, h1, h2]
  · simp [Resolvers.posts]

/-- C4, concrete instance: page 1 of the sample store holds post 11, then post 10. -/
theorem posts_page_window_witness :
    ({ isAuth := true, userId := some 1 } : Req).isAuth = true ∧ (1 : Int) ≤ 1 ∧
    Resolvers.posts (some 1) { isAuth := true, userId := some 1 } sampleState =
      (.ok { posts := [populate sampleState.users post11, populate sampleState.users post10],
             totalPosts := 2 }, sampleState) :=
  ⟨rfl, by decide,
    (posts_page_window 1 { isAuth := true, userId := some 1 } sampleState rfl (by decide)).2.2.1.trans
      rfl⟩

/-! ### Facts about the collections -/

/-- A stored post is the one found under its id when ids are unique. -/
theorem findPostById_of_mem (ps : List Post) (p : Post)
    (hnd : (ps.map (fun q => q._id)).Nodup) (hp : p ∈ ps) :
    findPostById ps p._id = some p := by
  induction ps with
  | nil => cases hp
  | cons x xs ih =>
    simp only [List.map_cons, List.nodup_cons, List.mem_map, not_exists, not_and] at hnd
    rcases List.mem_cons.1 hp with h | h
    · subst h
      simp [findPostById]
    · have hne : x._id ≠ p._id := fun e => hnd.1 p h e.symm
      have := ih hnd.2 h
      simp only [findPostById] at this ⊢
      simp [List.find?_cons, hne, this]

/-- The user found under an id carries that id. -/
theorem findUserById_id (us : List User) (oid : Option ObjectId) (u : User)
    (h : findUserById us oid = some u) : oid = some u._id := by
  cases oid with
  | none => simp [findUserById] at h
  | some id =>
    have := List.find?_some h
    simp only [beq_iff_eq] at this
    rw [this]

/-- The found user is a stored one. -/
theorem findUserById_mem (us : List User) (oid : Option ObjectId) (u : User)
    (h : findUserById us oid = some u) : u ∈ us := by
  cases oid with
  | none => simp [findUserById] at h
  | some id => exact List.mem_of_find?_eq_some h

/-- A reference that resolves is found. -/
theorem findUserById_of_exists (us : List User) (id : ObjectId)
    (h : ∃ u ∈ us, u._id = id) : ∃ u, findUserById us (some id) = some u := by
  obtain ⟨u, hu, hid⟩ := h
  cases hf : findUserById us (some id) with
  | some v => exact ⟨v, rfl⟩
  | none =>
    simp only [findUserById, List.find?_eq_none] at hf
    exact absurd (by simpa using hid) (hf u hu)

/-- With unique ids, removing by id keeps exactly the posts with another id. -/
theorem removePostById_eq_filter (id : ObjectId) (ps : List Post)
    (hnd : (ps.map (fun q => q._id)).Nodup) :
    removePostById id ps = ps.filter (fun q => q._id != id) := by
  induction ps with
  | nil => rfl
  | cons x xs ih =>
    simp only [List.map_cons, List.nodup_cons, List.mem_map, not_exists, not_and] at hnd
    by_cases hx : x._id = id
    · have hall : ∀ q ∈ xs, (q._id != id) = true := by
        intro q hq
        have : q._id ≠ x._id := hnd.1 q hq
        simpa [hx] using this
      simp [removePostById, hx, List.filter_eq_self.2 hall]
    · simp [removePostById, hx, ih hnd.2]

/-- With unique ids, saving a user rewrites exactly the record with that id. -/
theorem saveUser_eq_map (u : User) (us : List User)
    (hnd : (us.map (fun v => v._id)).Nodup) :
    saveUser u us = us.map (fun v => if v._id = u._id then u else v) := by
  induction us with
  | nil => rfl
  | cons x xs ih =>
    simp only [List.map_cons, List.nodup_cons, List.mem_map, not_exists, not_and] at hnd
    by_cases hx : x._id = u._id
    · have hall : ∀ v ∈ xs, (if v._id = u._id then u else v) = v := by
        intro v hv
        have : v._id ≠ u._id := fun e => hnd.1 v hv (e.trans hx.symm)
        simp [this]
      have hmap : xs.map (fun v => if v._id = u._id then u else v) = xs.map id :=
        List.map_congr_left (fun v hv => by simpa using hall v hv)
      simp [saveUser, hx, hmap]
    · simp [saveUser, hx, ih hnd.2]

/-- After a save, the id resolves to the saved record. -/
theorem findUserById_saveUser (u u0 : User) (us : List User)
    (h : findUserById us (some u._id) = some u0) :
    findUserById (saveUser u us) (some u._id) = some u := by
  induction us with
  | nil => simp [findUserById] at h
  | cons x xs ih =>
    by_cases hx : x._id = u._id
    · simp [saveUser, hx, findUserById]
    · simp only [findUserById, List.find?_cons] at h ih ⊢
      simp only [saveUser, hx, if_false, List.find?_cons]
      have hb : (x._id == u._id) = false := by simpa using hx
      rw [hb] at h ⊢
      exact ih h

/-- Every stored post has an id below the next fresh one. -/
theorem newObjectId_gt_posts (s : State) (q : Post) (hq : q ∈ s.posts) :
    q._id < newObjectId s := by
  have key : ∀ (l : List Nat) (b x : Nat), x ∈ l → x ≤ l.foldr max b := by
    intro l b x hx
    induction l with
    | nil => cases hx
    | cons a t ih =>
      rcases List.mem_cons.1 hx with h | h
      · subst h; exact Nat.le_max_left _ _
      · exact Nat.le_trans (ih h) (Nat.le_max_right _ _)
  have hmem : q._id ∈ (s.users.map (fun u => u._id)) ++ (s.posts.map (fun p => p._id)) :=
    List.mem_append_right _ (List.mem_map_of_mem _ hq)
  exact Nat.lt_succ_of_le (key _ _ _ hmem)

/-- A post appended under an id no stored post has is found under that id. -/
theorem findPostById_append_new (ps : List Post) (p : Post)
    (hfresh : ∀ q ∈ ps, q._id ≠ p._id) :
    findPostById (ps ++ [p]) p._id = some p := by
  induction ps with
  | nil => simp [findPostById]
  | cons x xs ih =>
    have hx : x._id ≠ p._id := hfresh x (List.mem_cons_self _ _)
    have := ih (fun q hq => hfresh q (List.mem_cons_of_mem _ hq))
    simp only [findPostById] at this ⊢
    simp [List.find?_cons, hx, this]

/-- Saving a user keeps the ids of the collection. -/
theorem saveUser_ids (u : User) (us : List User) :
    (saveUser u us).map (fun v => v._id) = us.map (fun v => v._id) := by
  induction us with
  | nil => rfl
  | cons x xs ih =>
    by_cases hx : x._id = u._id
    · simp [saveUser, hx]
    · simp [saveUser, hx, ih]

/-- Saving a post keeps the ids of the collection. -/
theorem savePost_ids (p : Post) (ps : List Post) :
    (savePost p ps).map (fun q => q._id) = ps.map (fun q => q._id) := by
  induction ps with
  | nil => rfl
  | cons x xs ih =>
    by_cases hx : x._id = p._id
    · simp [savePost, hx]
    · simp [savePost, hx, ih]

/-- After a save, every post of the collection is a post stored before or the saved one. -/
theorem mem_savePost (p q : Post) (ps : List Post) (hq : q ∈ savePost p ps) :
    q ∈ ps ∨ q = p := by
  induction ps with
  | nil => cases hq
  | cons x xs ih =>
    by_cases hx : x._id = p._id
    · simp only [savePost, hx, if_true, List.mem_cons] at hq
      rcases hq with h | h
      · exact Or.inr h
      · exact Or.inl (List.mem_cons_of_mem _ h)
    · simp only [savePost, hx, if_false, List.mem_cons] at hq
      rcases hq with h | h
      · exact Or.inl (h ▸ List.mem_cons_self _ _)
      · rcases ih h with h1 | h1
        · exact Or.inl (List.mem_cons_of_mem _ h1)
        · exact Or.inr h1

/-- Removal by id leaves a sublist of the collection. -/
theorem removePostById_sublist (id : ObjectId) (ps : List Post) :
    (removePostById id ps).Sublist ps := by
  induction ps with
  | nil => exact List.Sublist.refl _
  | cons x xs ih =>
    by_cases hx : x._id = id
    · simp only [removePostById, hx, if_true]
      exact List.sublist_cons_self _ _
    · simp only [removePostById, hx, if_false]
      exact ih.cons₂ _

/-- A creator reference resolves exactly when its id is among the ids of the users. -/
theorem resolves_iff (us : List User) (id : ObjectId) :
    (∃ u ∈ us, u._id = id) ↔ id ∈ us.map (fun v => v._id) := by
  simp [List.mem_map]

/-- The empty stores are consistent. -/
theorem consistent_empty :
    ({ users := [], posts := [], unlinked := [], emitted := [], lastId := 0 } :
      State).Consistent := by
  decide

/-- The resolver `createPost` keeps the stores consistent. -/
theorem createPost_consistent (postInput : PostInput) (req : Req) (now : Nat) (s : State)
    (hs : s.Consistent) : (Resolvers.createPost postInput req now s).2.Consistent := by
  simp only [Resolvers.createPost]
  split
  · exact hs
  · split
    · exact hs
    · split
      · exact hs
      · rename_i user huser
        split
        · exact hs
        · rename_i hreq
          have hfresh : newObjectId s ∉ s.posts.map (fun p => p._id) := by
            intro hmem
            obtain ⟨q, hq, he⟩ := List.mem_map.1 hmem
            exact absurd he (Nat.ne_of_lt (newObjectId_gt_posts s q hq))
          have hres : ∀ (us : List User) (id : ObjectId), (∃ u ∈ us, u._id = id) →
              ∃ u ∈ saveUser { user with posts := user.posts ++ [newObjectId s] } us,
                u._id = id := by
            intro us id h
            rw [resolves_iff] at h ⊢
            rw [saveUser_ids]
            exact h
          refine ⟨?_, ?_, ?_, ?_⟩
          · simp only [List.map_append, List.map_cons, List.map_nil]
            exact List.Nodup.append hs.1 (List.nodup_singleton _)
              (by simpa [List.Disjoint] using hfresh)
          · show ((saveUser _ s.users).map (fun u => u._id)).Nodup
            rw [saveUser_ids]
            exact hs.2.1
          · intro q hq
            rcases List.mem_append.1 hq with h | h
            · exact hres _ _ (hs.2.2.1 q h)
            · simp only [List.mem_singleton] at h
              subst h
              exact hres _ _ ⟨user, findUserById_mem _ _ _ huser, rfl⟩
          · intro q hq
            rcases List.mem_append.1 hq with h | h
            · exact hs.2.2.2 q h
            · simp only [List.mem_singleton] at h
              subst h
              exact hreq

/-- The resolver `updatePost` keeps the stores consistent. -/
theorem updatePost_consistent (id : ObjectId) (postInput : PostInput) (req : Req) (now : Nat)
    (s : State) (hs : s.Consistent) :
    (Resolvers.updatePost id postInput req now s).2.Consistent := by
  simp only [Resolvers.updatePost]
  split
  · exact hs
  · split
    · exact hs
    · rename_i post hpost
      have hpmem : post ∈ s.posts := List.mem_of_find?_eq_some hpost
      split
      · exact hs
      · exact hs
      · split
        · exact hs
        · split
          · exact hs
          · split
            · exact hs
            · rename_i hreq
              refine ⟨?_, hs.2.1, ?_, ?_⟩
              · show ((savePost _ s.posts).map (fun p => p._id)).Nodup
                rw [savePost_ids]
                exact hs.1
              · intro q hq
                rcases mem_savePost _ _ _ hq with h | h
                · exact hs.2.2.1 q h
                · subst h
                  exact hs.2.2.1 post hpmem
              · intro q hq
                rcases mem_savePost _ _ _ hq with h | h
                · exact hs.2.2.2 q h
                · subst h
                  exact hreq

/-- The resolver `deletePost` keeps the stores consistent. -/
theorem deletePost_consistent (id : ObjectId) (req : Req) (s : State) (hs : s.Consistent) :
    (Resolvers.deletePost id req s).2.Consistent := by
  have hsub := removePostById_sublist id s.posts
  have hnd : ((removePostById id s.posts).map (fun p => p._id)).Nodup :=
    hs.1.sublist (hsub.map _)
  simp only [Resolvers.deletePost]
  split
  · exact hs
  · split
    · exact hs
    · split
      · exact hs
      · split
        · exact hs
        · split
          · exact ⟨hnd, hs.2.1, fun q hq => hs.2.2.1 q (hsub.subset hq),
              fun q hq => hs.2.2.2 q (hsub.subset hq)⟩
          · refine ⟨hnd, ?_, ?_, fun q hq => hs.2.2.2 q (hsub.subset hq)⟩
            · show ((saveUser _ s.users).map (fun u => u._id)).Nodup
              rw [saveUser_ids]
              exact hs.2.1
            · intro q hq
              have := hs.2.2.1 q (hsub.subset hq)
              rw [resolves_iff] at this ⊢
              show q.creator ∈ (saveUser _ s.users).map (fun v => v._id)
              rw [saveUser_ids]
              exact this

/-- The resolver `updateStatus` keeps the stores consistent. -/
theorem updateStatus_consistent (status : String) (req : Req) (s : State)
    (hs : s.Consistent) : (Resolvers.updateStatus status req s).2.Consistent := by
  simp only [Resolvers.updateStatus]
  split
  · exact hs
  · split
    · exact hs
    · refine ⟨hs.1, ?_, ?_, hs.2.2.2⟩
      · show ((saveUser _ s.users).map (fun u => u._id)).Nodup
        rw [saveUser_ids]
        exact hs.2.1
      · intro q hq
        have := hs.2.2.1 q hq
        rw [resolves_iff] at this ⊢
        show q.creator ∈ (saveUser _ s.users).map (fun v => v._id)
        rw [saveUser_ids]
        exact this

/-- C5: for every stored post and every authenticated user whose id differs from the post's
creator id, `updatePost` (with any input, valid or not) and `deletePost` invoked by that user
fail with "Not authorized!" (code 403) and leave every store as it was. -/
theorem non_creator_forbidden (s : State) (p : Post) (req : Req) (userId : ObjectId)
    (hs : s.Consistent) (hp : p ∈ s.posts)
    (hauth : req.isAuth = true) (huser : req.userId = some userId)
    (hne : userId ≠ p.creator) :
    let e : Thrown := .error { message := "Not authorized!", code := some 403,
                               statusCode := none, data := [] }
    (∀ postInput now, Resolvers.updatePost p._id postInput req now s = (.error e, s)) ∧
    Resolvers.deletePost p._id req s = (.error e, s) := by
  have hfind := findPostById_of_mem s.posts p hs.1 hp
  obtain ⟨c, hc⟩ := findUserById_of_exists s.users p.creator (hs.2.2.1 p hp)
  have hcid : c._id = p.creator := by
    have := findUserById_id _ _ _ hc
    simpa using this.symm
  have hne1 : ¬ c._id = userId := fun e => hne (e.symm.trans hcid)
  have hne2 : ¬ p.creator = userId := fun e => hne e.symm
  refine ⟨?_, ?_⟩
  · intro postInput now
    simp [Resolvers.updatePost, hauth, hfind, hc, huser, hne1, notAuthorized]
  · simp [Resolvers.deletePost, hauth, hfind, huser, hne2, notAuthorized]

/-- C5, concrete instance: `bob` may neither update nor delete the post of `alice`. -/
theorem non_creator_forbidden_witness :
    sampleState.Consistent ∧ post10 ∈ sampleState.posts ∧
    Resolvers.deletePost 10 { isAuth := true, userId := some 2 } sampleState =
      (.error (.error { message := "Not authorized!", code := some 403,
                        statusCode := none, data := [] }), sampleState) :=
  ⟨by decide, by decide,
    (non_creator_forbidden sampleState post10 { isAuth := true, userId := some 2 } 2
      (by decide) (by decide) rfl rfl (by decide)).2⟩

/-- What `deletePost` does when the acting user is the creator of the stored post. -/
theorem deletePost_by_creator (s : State) (p : Post) (req : Req) (c : User)
    (hfind : findPostById s.posts p._id = some p)
    (hc : findUserById s.users (some p.creator) = some c)
    (hauth : req.isAuth = true) (huser : req.userId = some p.creator) :
    Resolvers.deletePost p._id req s =
      (.ok true,
        { s with
          unlinked := s.unlinked ++ [p.imageUrl],
          posts := removePostById p._id s.posts,
          users := saveUser { c with posts := c.posts.filter (fun r => r != p._id) } s.users }) := by
  simp [Resolvers.deletePost, hauth, hfind, huser, hc, clearImage]

/-- C6: `deletePost` invoked by the authenticated creator of a stored post succeeds; afterwards
the post is no longer in the post store, its id is no longer in the creator's `posts` list, one
image deletion was issued, for the post's `imageUrl`, and every other post and every other
user's record is unchanged. -/
theorem creator_delete_removes (s : State) (p : Post) (req : Req)
    (hs : s.Consistent) (hp : p ∈ s.posts)
    (hauth : req.isAuth = true) (huser : req.userId = some p.creator) :
    (Resolvers.deletePost p._id req s).1 = .ok true ∧
    findPostById (Resolvers.deletePost p._id req s).2.posts p._id = none ∧
    p ∉ (Resolvers.deletePost p._id req s).2.posts ∧
    (Resolvers.deletePost p._id req s).2.posts = s.posts.filter (fun q => q ≠ p) ∧
    (Resolvers.deletePost p._id req s).2.users =
      s.users.map (fun u =>
        if u._id = p.creator then { u with posts := u.posts.filter (fun r => r != p._id) }
        else u) ∧
    (∀ u ∈ (Resolvers.deletePost p._id req s).2.users, u._id = p.creator → p._id ∉ u.posts) ∧
    (Resolvers.deletePost p._id req s).2.unlinked = s.unlinked ++ [p.imageUrl] := by
  have hfind := findPostById_of_mem s.posts p hs.1 hp
  obtain ⟨c, hc⟩ := findUserById_of_exists s.users p.creator (hs.2.2.1 p hp)
  have hcid : c._id = p.creator := by
    have := findUserById_id _ _ _ hc
    simpa using this.symm
  have hcmem := findUserById_mem _ _ _ hc
  rw [deletePost_by_creator s p req c hfind hc hauth huser]
  have hposts : removePostById p._id s.posts = s.posts.filter (fun q => q ≠ p) := by
    rw [removePostById_eq_filter _ _ hs.1]
    apply List.filter_congr
    intro q hq
    by_cases hqp : q = p
    · subst hqp; simp
    · have : q._id ≠ p._id := fun e => hqp (List.inj_on_of_nodup_map hs.1 hq hp e)
      simp [hqp, this]
  have husers : saveUser { c with posts := c.posts.filter (fun r => r != p._id) } s.users =
      s.users.map (fun u =>
        if u._id = p.creator then { u with posts := u.posts.filter (fun r => r != p._id) }
        else u) := by
    rw [saveUser_eq_map _ _ hs.2.1]
    apply List.map_congr_left
    intro u hu
    by_cases hid : u._id = p.creator
    · have huc : u = c := List.inj_on_of_nodup_map hs.2.1 hu hcmem (hid.trans hcid.symm)
      subst huc
      simp [hid]
    · have : ¬ u._id = c._id := fun e => hid (e.trans hcid)
      simp [hid, this]
  refine ⟨rfl, ?_, ?_, hposts, husers, ?_, rfl⟩
  · show findPostById (removePostById p._id s.posts) p._id = none
    rw [hposts]
    simp only [findPostById, List.find?_eq_none, List.mem_filter, decide_eq_true_eq,
      beq_iff_eq, and_imp]
    intro q hq hqp e
    exact hqp (List.inj_on_of_nodup_map hs.1 hq hp e)
  · show p ∉ removePostById p._id s.posts
    rw [hposts]
    simp
  · show ∀ u ∈ saveUser _ s.users, u._id = p.creator → p._id ∉ u.posts
    rw [husers]
    intro u hu hid
    obtain ⟨v, _, hv⟩ := List.mem_map.1 hu
    by_cases hvid : v._id = p.creator
    · simp only [hvid, if_true] at hv
      subst hv
      simp
    · simp only [hvid, if_false] at hv
      subst hv
      exact absurd hid hvid

/-- C6, concrete instance: `alice` deletes her post from the sample store. -/
theorem creator_delete_removes_witness :
    sampleState.Consistent ∧ post10 ∈ sampleState.posts ∧
    (Resolvers.deletePost 10 { isAuth := true, userId := some 1 } sampleState).1 = .ok true ∧
    (Resolvers.deletePost 10 { isAuth := true, userId := some 1 } sampleState).2.unlinked =
      ["images/a.png"] :=
  have h := creator_delete_removes sampleState post10 { isAuth := true, userId := some 1 }
    (by decide) (by decide) rfl rfl
  ⟨by decide, by decide, h.1, h.2.2.2.2.2.2⟩

/-- A string that the validator counts at five or more is not the empty string. -/
theorem ne_empty_of_five_le_length (t : String) (h : 5 ≤ validatorLength t) : t ≠ "" := by
  intro e
  rw [e] at h
  exact absurd h (by decide)

/-- The length that the validator compares is at most the number of characters. -/
theorem validatorLength_le (t : String) : validatorLength t ≤ t.length := by
  unfold validatorLength
  exact List.length_filter_le _ _

/-- The validator's count is the number of characters minus the number of variation selectors
U+FE0F and U+FE0E among them. -/
theorem validatorLength_add_selectors (t : String) :
    validatorLength t +
        (t.toList.count (Char.ofNat 0xFE0F) + t.toList.count (Char.ofNat 0xFE0E)) =
      t.length := by
  have hne : Char.ofNat 0xFE0F ≠ Char.ofNat 0xFE0E := by decide
  have key : ∀ l : List Char,
      (l.filter (fun c => c != Char.ofNat 0xFE0F && c != Char.ofNat 0xFE0E)).length +
          (l.count (Char.ofNat 0xFE0F) + l.count (Char.ofNat 0xFE0E)) = l.length := by
    intro l
    induction l with
    | nil => rfl
    | cons c cs ih =>
      by_cases h1 : c = Char.ofNat 0xFE0F
      · subst h1
        simp only [List.filter_cons, bne_self_eq_false, Bool.false_and, List.count_cons_self,
          List.length_cons]
        rw [List.count_cons_of_ne (Ne.symm hne)]
        simp only [Bool.false_eq_true, if_false]
        omega
      · by_cases h2 : c = Char.ofNat 0xFE0E
        · subst h2
          simp only [List.filter_cons, bne_self_eq_false, Bool.and_false, List.count_cons_self,
            List.length_cons]
          rw [List.count_cons_of_ne hne]
          simp only [Bool.false_eq_true, if_false]
          omega
        · have hb1 : (c != Char.ofNat 0xFE0F) = true := by simpa using h1
          have hb2 : (c != Char.ofNat 0xFE0E) = true := by simpa using h2
          simp only [List.filter_cons, hb1, hb2, Bool.and_self, if_true, List.length_cons]
          rw [List.count_cons_of_ne (Ne.symm h1), List.count_cons_of_ne (Ne.symm h2)]
          omega
  exact key t.toList

/-- A string that the validator counts at five or more has characters. -/
theorem length_ne_zero_of_five_le (t : String) (h : 5 ≤ validatorLength t) :
    ¬ t.length = 0 := by
  have := validatorLength_le t
  omega

/-- What `createPost` does on valid input with a non-empty image reference, for an
authenticated request whose user exists. -/
theorem createPost_valid (postInput : PostInput) (req : Req) (now : Nat) (s : State)
    (user : User) (hauth : req.isAuth = true)
    (huser : findUserById s.users req.userId = some user)
    (htitle : 5 ≤ validatorLength postInput.title) (hcontent : 5 ≤ validatorLength postInput.content)
    (himage : postInput.imageUrl ≠ "") :
    Resolvers.createPost postInput req now s =
      (.ok { _id := newObjectId s, title := postInput.title, imageUrl := postInput.imageUrl,
             content := postInput.content,
             creator := some { user with posts := user.posts ++ [newObjectId s] },
             createdAt := now, updatedAt := now },
       { s with
         posts := s.posts ++ [{ _id := newObjectId s, title := postInput.title,
                                imageUrl := postInput.imageUrl, content := postInput.content,
                                creator := user._id, createdAt := now, updatedAt := now }],
         lastId := newObjectId s,
         users := saveUser { user with posts := user.posts ++ [newObjectId s] } s.users }) := by
  have ht := ne_empty_of_five_le_length _ htitle
  have hc := ne_empty_of_five_le_length _ hcontent
  have ht0 := length_ne_zero_of_five_le _ htitle
  have hc0 := length_ne_zero_of_five_le _ hcontent
  simp [Resolvers.createPost, hauth, validatePostInput, htitle, hcontent, ht0, hc0, huser,
    Post.requiredPaths, ht, hc, himage]

/-- C7 as stated fails, twice over. A title of length 5 with valid content, for an
authenticated existing user, is rejected by the schema when the image reference is the empty
string; and the title made of "abcd" and the variation selector U+FE0F has length 5 but is
counted as 4 by the validator, so it is refused with "Title is invalid.". Nothing is stored in
either case. -/
theorem createPost_title5_fails :
    ({ isAuth := true, userId := some 1 } : Req).isAuth = true ∧
    findUserById sampleState.users (some 1) = some alice ∧
    "Title".length = 5 ∧ 5 ≤ "Hello".length ∧
    Resolvers.createPost { title := "Title", content := "Hello", imageUrl := "" }
        { isAuth := true, userId := some 1 } 300 sampleState =
      (.error (.validationError ["imageUrl"]), sampleState) ∧
    ("abcd" ++ String.singleton (Char.ofNat 0xFE0F)).length = 5 ∧
    Resolvers.createPost
        { title := "abcd" ++ String.singleton (Char.ofNat 0xFE0F), content := "Hello",
          imageUrl := "images/c.png" }
        { isAuth := true, userId := some 1 } 300 sampleState =
      (.error (.error { message := "Invalid input.", code := some 422, statusCode := none,
                        data := ["Title is invalid."] }), sampleState) :=
  ⟨rfl, by decide, by decide, by decide, by rfl, by decide, by rfl⟩

/-- C7 (amended): for an authenticated request whose user exists and whose content the
validator counts at 5 or more, `createPost` with a title of fewer than 5 characters (more
generally, a title the validator counts below 5) fails with "Invalid input." (code 422) whose
data lists "Title is invalid." and stores nothing; with a title the validator counts at 5 or
more and a non-empty `imageUrl` it succeeds and stores the post; with such a title and an empty
`imageUrl` the schema rejects the save and nothing is stored. The validator counts the
characters other than the variation selectors U+FE0F and U+FE0E. -/
theorem createPost_title_validation (postInput : PostInput) (req : Req) (now : Nat)
    (s : State) (user : User) (hauth : req.isAuth = true)
    (huser : findUserById s.users req.userId = some user)
    (hcontent : 5 ≤ validatorLength postInput.content) :
    (postInput.title.length < 5 ∨ validatorLength postInput.title < 5 →
      Resolvers.createPost postInput req now s =
        (.error (.error { message := "Invalid input.", code := some 422, statusCode := none,
                          data := ["Title is invalid."] }), s)) ∧
    (5 ≤ validatorLength postInput.title → postInput.imageUrl ≠ "" →
      ∃ doc, (Resolvers.createPost postInput req now s).1 = .ok doc ∧
        doc.title = postInput.title ∧
        (Resolvers.createPost postInput req now s).2.posts =
          s.posts ++ [{ _id := doc._id, title := postInput.title,
                        imageUrl := postInput.imageUrl, content := postInput.content,
                        creator := user._id, createdAt := now, updatedAt := now }]) ∧
    (5 ≤ validatorLength postInput.title → postInput.imageUrl = "" →
      Resolvers.createPost postInput req now s =
        (.error (.validationError ["imageUrl"]), s)) ∧
    (∀ t : String,
      validatorLength t +
          (t.toList.count (Char.ofNat 0xFE0F) + t.toList.count (Char.ofNat 0xFE0E)) =
        t.length) := by
  have hc := ne_empty_of_five_le_length _ hcontent
  have hc0 := length_ne_zero_of_five_le _ hcontent
  refine ⟨?_, ?_, ?_, validatorLength_add_selectors⟩
  · intro ht
    have hle := validatorLength_le postInput.title
    have ht5 : ¬ 5 ≤ validatorLength postInput.title := by omega
    simp [Resolvers.createPost, hauth, validatePostInput, ht5, hcontent, hc0, invalidInput]
  · intro ht himage
    rw [createPost_valid postInput req now s user hauth huser ht hcontent himage]
    exact ⟨_, rfl, rfl, rfl⟩
  · intro ht himage
    have ht1 := ne_empty_of_five_le_length _ ht
    have ht0 := length_ne_zero_of_five_le _ ht
    simp [Resolvers.createPost, hauth, validatePostInput, ht, hcontent, ht0, hc0, huser,
      Post.requiredPaths, ht1, hc, himage]

/-- C7 (amended), concrete instance: for `alice`, a title of four characters is refused and a
title of five characters is stored. -/
theorem createPost_title_validation_witness :
    ({ isAuth := true, userId := some 1 } : Req).isAuth = true ∧
    findUserById sampleState.users (some 1) = some alice ∧ 5 ≤ validatorLength "Hello" ∧
    Resolvers.createPost { title := "Four", content := "Hello", imageUrl := "images/c.png" }
        { isAuth := true, userId := some 1 } 300 sampleState =
      (.error (.error { message := "Invalid input.", code := some 422, statusCode := none,
                        data := ["Title is invalid."] }), sampleState) ∧
    ∃ doc, (Resolvers.createPost
        { title := "Title", content := "Hello", imageUrl := "images/c.png" }
        { isAuth := true, userId := some 1 } 300 sampleState).1 = .ok doc ∧
      doc.title = "Title" :=
  ⟨rfl, by decide, by decide,
    (createPost_title_validation
      { title := "Four", content := "Hello", imageUrl := "images/c.png" }
      { isAuth := true, userId := some 1 } 300 sampleState alice rfl (by decide)
      (by decide)).1 (Or.inl (by decide)),
    ((createPost_title_validation
      { title := "Title", content := "Hello", imageUrl := "images/c.png" }
      { isAuth := true, userId := some 1 } 300 sampleState alice rfl (by decide)
      (by decide)).2.1 (by decide) (by decide)).imp (fun _ h => ⟨h.1, h.2.1⟩)⟩

/-- C8: for valid title and content, a non-empty `imageUrl` and an authenticated existing user,
`createPost` followed by `post` on the returned id succeeds and returns a post with the
submitted title, content and `imageUrl`, whose creator is the acting user and whose `createdAt`
equals its `updatedAt`. Valid is what the resolver checks: the validator counts the title and
the content at 5 or more, its count being the number of characters minus the number of
variation selectors U+FE0F and U+FE0E. -/
theorem create_then_get_roundtrip (postInput : PostInput) (req : Req) (now : Nat)
    (s : State) (user : User) (hauth : req.isAuth = true)
    (huser : findUserById s.users req.userId = some user)
    (htitle : 5 ≤ validatorLength postInput.title) (hcontent : 5 ≤ validatorLength postInput.content)
    (himage : postInput.imageUrl ≠ "") :
    (∃ created s1, Resolvers.createPost postInput req now s = (.ok created, s1) ∧
      ∃ got, Resolvers.post created._id req s1 = (.ok got, s1) ∧
        got._id = created._id ∧
        got.title = postInput.title ∧ got.content = postInput.content ∧
        got.imageUrl = postInput.imageUrl ∧
        (∃ u, got.creator = some u ∧ req.userId = some u._id ∧ u._id = user._id) ∧
        got.createdAt = got.updatedAt) ∧
    (∀ t : String,
      validatorLength t +
          (t.toList.count (Char.ofNat 0xFE0F) + t.toList.count (Char.ofNat 0xFE0E)) =
        t.length) := by
  refine ⟨?_, validatorLength_add_selectors⟩
  refine ⟨_, _, createPost_valid postInput req now s user hauth huser htitle hcontent himage, ?_⟩
  have hid := findUserById_id _ _ _ huser
  have hfresh : ∀ q ∈ s.posts, q._id ≠ newObjectId s := fun q hq =>
    Nat.ne_of_lt (newObjectId_gt_posts s q hq)
  have hfind := findPostById_append_new s.posts
    { _id := newObjectId s, title := postInput.title, imageUrl := postInput.imageUrl,
      content := postInput.content, creator := user._id, createdAt := now, updatedAt := now }
    hfresh
  have hu : findUserById
      (saveUser { user with posts := user.posts ++ [newObjectId s] } s.users)
      (some user._id) = some { user with posts := user.posts ++ [newObjectId s] } :=
    findUserById_saveUser { user with posts := user.posts ++ [newObjectId s] } user s.users
      (by rw [← hid]; exact huser)
  refine ⟨populate (saveUser { user with posts := user.posts ++ [newObjectId s] } s.users)
    { _id := newObjectId s, title := postInput.title, imageUrl := postInput.imageUrl,
      content := postInput.content, creator := user._id, createdAt := now, updatedAt := now },
    ?_, rfl, rfl, rfl, rfl, ?_, rfl⟩
  · simp only [Resolvers.post, hauth]
    simp only [hfind]
    rfl
  · exact ⟨_, hu, hid, rfl⟩

/-- C8, concrete instance: `alice` creates a post in the sample store and reads it back. -/
theorem create_then_get_roundtrip_witness :
    ({ isAuth := true, userId := some 1 } : Req).isAuth = true ∧
    findUserById sampleState.users (some 1) = some alice ∧
    ∃ created s1,
      Resolvers.createPost { title := "Title", content := "Hello", imageUrl := "images/c.png" }
        { isAuth := true, userId := some 1 } 300 sampleState = (.ok created, s1) ∧
      ∃ got, Resolvers.post created._id { isAuth := true, userId := some 1 } s1 = (.ok got, s1) ∧
        got.title = "Title" ∧ got.createdAt = got.updatedAt := by
  obtain ⟨created, s1, h1, got, h2, _, h3, _, _, _, h4⟩ :=
    (create_then_get_roundtrip
      { title := "Title", content := "Hello", imageUrl := "images/c.png" }
      { isAuth := true, userId := some 1 } 300 sampleState alice rfl (by decide) (by decide)
      (by decide) (by decide)).1
  exact ⟨rfl, by decide, created, s1, h1, got, h2, h3, h4⟩

/-- The `catch` block never answers with success. -/
theorem passToNext_not_succeeded (t : Thrown) : (Feed.passToNext t).succeeded = false := by
  cases t with
  | error e =>
    simp only [Feed.passToNext]
    split
    · split <;> rfl
    · rfl
  | typeError => rfl
  | validationError paths => rfl
  | mongoError => rfl

/-- The GraphQL resolver `createPost` emits nothing. -/
theorem resolver_createPost_emitted (postInput : PostInput) (req : Req) (now : Nat)
    (s : State) : (Resolvers.createPost postInput req now s).2.emitted = s.emitted := by
  simp only [Resolvers.createPost]
  repeat' split
  all_goals rfl

/-- The GraphQL resolver `updatePost` emits nothing and requests no image deletion. -/
theorem resolver_updatePost_logs (id : ObjectId) (postInput : PostInput) (req : Req)
    (now : Nat) (s : State) :
    (Resolvers.updatePost id postInput req now s).2.emitted = s.emitted ∧
    (Resolvers.updatePost id postInput req now s).2.unlinked = s.unlinked := by
  simp only [Resolvers.updatePost]
  repeat' split
  all_goals exact ⟨rfl, rfl⟩

/-- The GraphQL resolver `deletePost` emits nothing. -/
theorem resolver_deletePost_emitted (id : ObjectId) (req : Req) (s : State) :
    (Resolvers.deletePost id req s).2.emitted = s.emitted := by
  simp only [Resolvers.deletePost]
  repeat' split
  all_goals rfl

/-- The REST controller `createPost` emits one "create" event when it succeeds, none when it
fails. -/
theorem feed_createPost_emitted (req : Feed.FeedReq) (now : Nat) (s : State) :
    ((Feed.createPost req now s).1.succeeded = true →
      ∃ post user, findUserById s.users req.userId = some user ∧
        (Feed.createPost req now s).2.posts = s.posts ++ [post] ∧
        (Feed.createPost req now s).2.emitted =
          s.emitted ++ [("posts", Notification.create post req.userId user.name)]) ∧
    ((Feed.createPost req now s).1.succeeded = false →
      (Feed.createPost req now s).2.emitted = s.emitted) := by
  simp only [Feed.createPost]
  by_cases hv : req.validationErrors = []
  · simp only [hv, ne_eq, not_true_eq_false, if_false]
    cases hf : req.filePath with
    | none => simp [Feed.Outcome.succeeded]
    | some imageUrl =>
      cases hu : req.userId with
      | none => simp [passToNext_not_succeeded]
      | some userId =>
        cases hr : Post.requiredPaths req.title imageUrl req.content (some userId) with
        | cons a t => simp [hr, passToNext_not_succeeded]
        | nil =>
          cases hfu : findUserById s.users (some userId) with
          | none => simp [hr, hfu, passToNext_not_succeeded]
          | some user => simp [hr, hfu, Feed.Outcome.succeeded, emit]
  · simp [hv, Feed.Outcome.succeeded]

/-- The REST controller `updatePost` emits one "update" event when it succeeds, none when it
fails. -/
theorem feed_updatePost_emitted (req : Feed.FeedReq) (now : Nat) (s : State) :
    ((Feed.updatePost req now s).1.succeeded = true →
      ∃ doc, doc._id = req.postId ∧ doc.title = req.title ∧ doc.content = req.content ∧
        (Feed.updatePost req now s).2.emitted =
          s.emitted ++ [("posts", Notification.update doc)]) ∧
    ((Feed.updatePost req now s).1.succeeded = false →
      (Feed.updatePost req now s).2.emitted = s.emitted) := by
  simp only [Feed.updatePost]
  by_cases hv : req.validationErrors = []
  · simp only [hv, ne_eq, not_true_eq_false, if_false]
    generalize (match req.filePath with
      | some path => some path
      | none => req.image) = picked
    cases picked with
    | none => simp [Feed.Outcome.succeeded]
    | some imageUrl =>
      by_cases hi : imageUrl = ""
      · simp [hi, Feed.Outcome.succeeded]
      · simp only [hi, if_false]
        cases hp : findPostById s.posts req.postId with
        | none => simp [hp, passToNext_not_succeeded]
        | some post =>
          have hid : post._id = req.postId := by
            have := List.find?_some hp
            simpa using this
          cases hc : findUserById s.users (some post.creator) with
          | none => simp [hp, hc, passToNext_not_succeeded]
          | some creator =>
            by_cases ho : some creator._id ≠ req.userId
            · simp [hp, hc, ho, passToNext_not_succeeded]
            · simp only [hp, hc, ho, if_false]
              split
              · simp only [passToNext_not_succeeded]
                refine ⟨fun h => absurd h (by simp), fun _ => ?_⟩
                split <;> rfl
              · have hem : (if imageUrl ≠ post.imageUrl then clearImage post.imageUrl s
                    else s).emitted = s.emitted := by
                  split <;> rfl
                simp only [Feed.Outcome.succeeded, emit, hem]
                refine ⟨fun _ => ?_, fun h => absurd h (by simp)⟩
                refine ⟨_, ?_, ?_, ?_, rfl⟩
                · exact hid
                · rfl
                · rfl
  · simp [hv, Feed.Outcome.succeeded]

/-- The REST controller `deletePost` emits one "delete" event when it succeeds, none when it
fails. -/
theorem feed_deletePost_emitted (req : Feed.FeedReq) (s : State) :
    ((Feed.deletePost req s).1.succeeded = true →
      (Feed.deletePost req s).2.emitted =
        s.emitted ++ [("posts", Notification.delete req.postId)]) ∧
    ((Feed.deletePost req s).1.succeeded = false →
      (Feed.deletePost req s).2.emitted = s.emitted) := by
  simp only [Feed.deletePost]
  cases hp : findPostById s.posts req.postId with
  | none => simp [hp, passToNext_not_succeeded]
  | some post =>
    by_cases ho : some post.creator ≠ req.userId
    · simp [hp, ho, passToNext_not_succeeded]
    · simp only [hp, ho, if_false]
      have hcl : (clearImage post.imageUrl s).users = s.users := rfl
      simp only [hcl]
      cases hu : findUserById s.users req.userId with
      | none => simp [hu, passToNext_not_succeeded, clearImage]
      | some user => simp [hu, Feed.Outcome.succeeded, emit, clearImage]

/-- C9 as stated fails: a successful GraphQL `createPost` (here by `alice` on the sample store)
publishes no notification. -/
theorem createPost_resolver_publishes_nothing :
    (∃ doc, (Resolvers.createPost
        { title := "Title", content := "Hello", imageUrl := "images/c.png" }
        { isAuth := true, userId := some 1 } 300 sampleState).1 = .ok doc) ∧
    (Resolvers.createPost { title := "Title", content := "Hello", imageUrl := "images/c.png" }
        { isAuth := true, userId := some 1 } 300 sampleState).2.posts.length = 3 ∧
    (Resolvers.createPost { title := "Title", content := "Hello", imageUrl := "images/c.png" }
        { isAuth := true, userId := some 1 } 300 sampleState).2.emitted = [] :=
  ⟨⟨_, rfl⟩, by rfl, by rfl⟩

/-- C9 (amended): the post mutations of the GraphQL endpoint (`createPost`, `updatePost`,
`deletePost`) publish no notification, whether they succeed or fail; each post mutation of the
REST controllers publishes exactly one notification on the "posts" channel when it succeeds
("create" with the stored post and the creator summarised as id and name, "update" with the
post, "delete" with the post id) and none when it fails. -/
theorem notifications_by_entry_point (s : State) :
    (∀ postInput req now, (Resolvers.createPost postInput req now s).2.emitted = s.emitted) ∧
    (∀ id postInput req now,
      (Resolvers.updatePost id postInput req now s).2.emitted = s.emitted) ∧
    (∀ id req, (Resolvers.deletePost id req s).2.emitted = s.emitted) ∧
    (∀ req now,
      ((Feed.createPost req now s).1.succeeded = true →
        ∃ post user, findUserById s.users req.userId = some user ∧
          (Feed.createPost req now s).2.posts = s.posts ++ [post] ∧
          (Feed.createPost req now s).2.emitted =
            s.emitted ++ [("posts", Notification.create post req.userId user.name)]) ∧
      ((Feed.createPost req now s).1.succeeded = false →
        (Feed.createPost req now s).2.emitted = s.emitted)) ∧
    (∀ req now,
      ((Feed.updatePost req now s).1.succeeded = true →
        ∃ doc, doc._id = req.postId ∧ doc.title = req.title ∧ doc.content = req.content ∧
          (Feed.updatePost req now s).2.emitted =
            s.emitted ++ [("posts", Notification.update doc)]) ∧
      ((Feed.updatePost req now s).1.succeeded = false →
        (Feed.updatePost req now s).2.emitted = s.emitted)) ∧
    (∀ req,
      ((Feed.deletePost req s).1.succeeded = true →
        (Feed.deletePost req s).2.emitted =
          s.emitted ++ [("posts", Notification.delete req.postId)]) ∧
      ((Feed.deletePost req s).1.succeeded = false →
        (Feed.deletePost req s).2.emitted = s.emitted)) :=
  ⟨fun postInput req now => resolver_createPost_emitted postInput req now s,
   fun id postInput req now => (resolver_updatePost_logs id postInput req now s).1,
   fun id req => resolver_deletePost_emitted id req s,
   fun req now => feed_createPost_emitted req now s,
   fun req now => feed_updatePost_emitted req now s,
   fun req => feed_deletePost_emitted req s⟩

/-- What the resolver `updatePost` does for the creator of the stored post, on valid title and
content and a non-empty image reference. -/
theorem updatePost_by_creator (s : State) (p : Post) (req : Req) (postInput : PostInput)
    (now : Nat) (c : User)
    (hfind : findPostById s.posts p._id = some p)
    (hc : findUserById s.users (some p.creator) = some c)
    (hauth : req.isAuth = true) (huser : req.userId = some p.creator)
    (htitle : 5 ≤ validatorLength postInput.title) (hcontent : 5 ≤ validatorLength postInput.content)
    (himage : postInput.imageUrl ≠ "") (hstored : p.imageUrl ≠ "") :
    Resolvers.updatePost p._id postInput req now s =
      (.ok { _id := p._id, title := postInput.title,
             imageUrl := if postInput.imageUrl ≠ "undefined" then postInput.imageUrl
                         else p.imageUrl,
             content := postInput.content, creator := some c, createdAt := p.createdAt,
             updatedAt :=
               if ({ p with
                     title := postInput.title, content := postInput.content,
                     imageUrl := if postInput.imageUrl ≠ "undefined" then postInput.imageUrl
                                 else p.imageUrl } : Post) = p
               then p.updatedAt else now },
       { s with
         posts := savePost
           { p with
             title := postInput.title, content := postInput.content,
             imageUrl := if postInput.imageUrl ≠ "undefined" then postInput.imageUrl
                         else p.imageUrl,
             updatedAt :=
               if ({ p with
                     title := postInput.title, content := postInput.content,
                     imageUrl := if postInput.imageUrl ≠ "undefined" then postInput.imageUrl
                                 else p.imageUrl } : Post) = p
               then p.updatedAt else now } s.posts }) := by
  have ht := ne_empty_of_five_le_length _ htitle
  have hcn := ne_empty_of_five_le_length _ hcontent
  have ht0 := length_ne_zero_of_five_le _ htitle
  have hc0 := length_ne_zero_of_five_le _ hcontent
  have hcid : c._id = p.creator := by
    have := findUserById_id _ _ _ hc
    simpa using this.symm
  have hreq : Post.requiredPaths postInput.title
      (if postInput.imageUrl ≠ "undefined" then postInput.imageUrl else p.imageUrl)
      postInput.content (some p.creator) = [] := by
    by_cases hu : postInput.imageUrl = "undefined"
    · simp [Post.requiredPaths, ht, hcn, hu, hstored]
    · simp [Post.requiredPaths, ht, hcn, hu, himage]
  simp only [Resolvers.updatePost, hauth, hfind, hc, huser, hcid, validatePostInput, htitle,
    hcontent, ht0, hc0, hreq]
  simp

/-- C10 as stated fails: a successful GraphQL `updatePost` by the creator with an `imageUrl`
different from the stored one (here by `alice` on her post) issues no image deletion. -/
theorem updatePost_resolver_new_image_no_deletion :
    sampleState.Consistent ∧ findPostById sampleState.posts 10 = some post10 ∧
    post10.creator = 1 ∧ post10.imageUrl ≠ "images/new.png" ∧
    (∃ doc, (Resolvers.updatePost 10
        { title := "Title", content := "Hello", imageUrl := "images/new.png" }
        { isAuth := true, userId := some 1 } 300 sampleState).1 = .ok doc ∧
      doc.imageUrl = "images/new.png") ∧
    (Resolvers.updatePost 10
        { title := "Title", content := "Hello", imageUrl := "images/new.png" }
        { isAuth := true, userId := some 1 } 300 sampleState).2.unlinked = [] :=
  ⟨by decide, by decide, rfl, by decide, ⟨_, rfl, by rfl⟩, by rfl⟩

/-- The image deletions requested by the REST controller `updatePost` for the creator of the
stored post, once the validation result is empty and an image reference was picked. -/
theorem feed_updatePost_unlinked (s : State) (p : Post) (c : User) (req : Feed.FeedReq)
    (now : Nat) (imageUrl : String)
    (hfind : findPostById s.posts req.postId = some p)
    (hc : findUserById s.users (some p.creator) = some c)
    (huser : req.userId = some p.creator) (hvalid : req.validationErrors = [])
    (hpick : (match req.filePath with
      | some path => some path
      | none => req.image) = some imageUrl)
    (himage : imageUrl ≠ "") :
    (Feed.updatePost req now s).2.unlinked =
      if imageUrl = p.imageUrl then s.unlinked else s.unlinked ++ [p.imageUrl] := by
  have hcid : c._id = p.creator := by
    have := findUserById_id _ _ _ hc
    simpa using this.symm
  simp only [Feed.updatePost, hvalid, ne_eq, not_true_eq_false, if_false, hpick, himage, hfind,
    hc, huser, hcid]
  by_cases hsame : imageUrl = p.imageUrl
  · simp only [hsame, not_true_eq_false, if_false, if_true]
    split <;> rfl
  · simp only [hsame, not_false_eq_true, if_true, if_false]
    split <;> rfl

/-- C10 (amended): for every stored post and its authenticated creator with valid title and
content, the GraphQL resolver `updatePost` succeeds (for a non-empty `imageUrl`) and issues no
image deletion, whether the `imageUrl` is identical to the stored one or different; the REST
controller `updatePost` issues no image deletion for an identical image reference and exactly
one, against the post's old image path, for a different one. Valid is what the resolver
checks: the validator counts title and content at 5 or more, its count being the number of
characters minus the number of variation selectors U+FE0F and U+FE0E. -/
theorem update_image_deletion (s : State) (p : Post) (hs : s.Consistent) (hp : p ∈ s.posts) :
    (∀ postInput req now,
      (Resolvers.updatePost p._id postInput req now s).2.unlinked = s.unlinked) ∧
    (∀ postInput req now, req.isAuth = true → req.userId = some p.creator →
      5 ≤ validatorLength postInput.title → 5 ≤ validatorLength postInput.content → postInput.imageUrl ≠ "" →
      ∃ doc, (Resolvers.updatePost p._id postInput req now s).1 = .ok doc) ∧
    (∀ (req : Feed.FeedReq) now imageUrl, req.postId = p._id → req.userId = some p.creator →
      req.validationErrors = [] →
      (match req.filePath with
        | some path => some path
        | none => req.image) = some imageUrl →
      imageUrl ≠ "" →
      (imageUrl = p.imageUrl → (Feed.updatePost req now s).2.unlinked = s.unlinked) ∧
      (imageUrl ≠ p.imageUrl →
        (Feed.updatePost req now s).2.unlinked = s.unlinked ++ [p.imageUrl])) ∧
    (∀ t : String,
      validatorLength t +
          (t.toList.count (Char.ofNat 0xFE0F) + t.toList.count (Char.ofNat 0xFE0E)) =
        t.length) := by
  have hfind := findPostById_of_mem s.posts p hs.1 hp
  obtain ⟨c, hc⟩ := findUserById_of_exists s.users p.creator (hs.2.2.1 p hp)
  refine ⟨fun postInput req now => (resolver_updatePost_logs p._id postInput req now s).2,
    ?_, ?_, validatorLength_add_selectors⟩
  · intro postInput req now hauth huser htitle hcontent himage
    have hstored : p.imageUrl ≠ "" := by
      have := hs.2.2.2 p hp
      intro e
      simp [Post.requiredPaths, e] at this
    rw [updatePost_by_creator s p req postInput now c hfind hc hauth huser htitle hcontent
      himage hstored]
    exact ⟨_, rfl⟩
  · intro req now imageUrl hid huser hvalid hpick himage
    have h := feed_updatePost_unlinked s p c req now imageUrl (by rw [hid]; exact hfind) hc
      huser hvalid hpick himage
    refine ⟨fun hsame => ?_, fun hdiff => ?_⟩
    · rw [h, if_pos hsame]
    · rw [h, if_neg hdiff]

/-- C10 (amended), concrete instance: `alice` replaces the image of her post through the REST
controller, which requests the deletion of the old file. -/
theorem update_image_deletion_witness :
    sampleState.Consistent ∧ post10 ∈ sampleState.posts ∧
    (Feed.updatePost
        { userId := some 1, validationErrors := [], filePath := some "images/new.png",
          title := "Title", content := "Hello", image := none, postId := 10 }
        300 sampleState).2.unlinked = ["images/a.png"] :=
  ⟨by decide, by decide,
    ((update_image_deletion sampleState post10 (by decide) (by decide)).2.2.1
      { userId := some 1, validationErrors := [], filePath := some "images/new.png",
        title := "Title", content := "Hello", image := none, postId := 10 }
      300 "images/new.png" rfl rfl rfl rfl (by decide)).2 (by decide)⟩

/-- After a save, the id resolves to the saved post. -/
theorem findPostById_savePost (p p0 : Post) (ps : List Post)
    (h : findPostById ps p._id = some p0) :
    findPostById (savePost p ps) p._id = some p := by
  induction ps with
  | nil => simp [findPostById] at h
  | cons x xs ih =>
    by_cases hx : x._id = p._id
    · simp [savePost, hx, findPostById]
    · simp only [findPostById, List.find?_cons] at h ih ⊢
      simp only [savePost, hx, if_false, List.find?_cons]
      have hb : (x._id == p._id) = false := by simpa using hx
      rw [hb] at h ⊢
      exact ih h

/-- With valid title and content, `updatePost` by the creator fails on an empty image
reference: the schema rejects the save and nothing is written. -/
theorem updatePost_empty_image (s : State) (p : Post) (req : Req) (postInput : PostInput)
    (now : Nat) (c : User)
    (hfind : findPostById s.posts p._id = some p)
    (hc : findUserById s.users (some p.creator) = some c)
    (hauth : req.isAuth = true) (huser : req.userId = some p.creator)
    (htitle : 5 ≤ validatorLength postInput.title) (hcontent : 5 ≤ validatorLength postInput.content)
    (himage : postInput.imageUrl = "") :
    Resolvers.updatePost p._id postInput req now s =
      (.error (.validationError ["imageUrl"]), s) := by
  have ht := ne_empty_of_five_le_length _ htitle
  have hcn := ne_empty_of_five_le_length _ hcontent
  have ht0 := length_ne_zero_of_five_le _ htitle
  have hc0 := length_ne_zero_of_five_le _ hcontent
  have hcid : c._id = p.creator := by
    have := findUserById_id _ _ _ hc
    simpa using this.symm
  have hne : ("" : String) ≠ "undefined" := by decide
  simp [Resolvers.updatePost, hauth, hfind, hc, huser, hcid, validatePostInput, htitle,
    hcontent, ht0, hc0, himage, hne, Post.requiredPaths, ht, hcn]

/-- C11: for every stored post and its authenticated creator with valid title and content,
`updatePost` succeeds exactly when the supplied image reference is not empty, and a successful
`updatePost` stores the supplied title and content, leaves the post's id, creator and
`createdAt` as they were, and changes the stored `imageUrl` only when the supplied image
reference is not the sentinel "undefined" (the literal the client sends when it supplies no
image): with the sentinel the stored `imageUrl` is the one from before, otherwise it is the
supplied one. Valid is what the resolver checks: the validator counts title and content at 5 or
more, its count being the number of characters minus the number of variation selectors U+FE0F
and U+FE0E. -/
theorem updatePost_sets_fields (s : State) (p : Post) (req : Req) (postInput : PostInput)
    (now : Nat) (hs : s.Consistent) (hp : p ∈ s.posts)
    (hauth : req.isAuth = true) (huser : req.userId = some p.creator)
    (htitle : 5 ≤ validatorLength postInput.title) (hcontent : 5 ≤ validatorLength postInput.content) :
    ((∃ doc, (Resolvers.updatePost p._id postInput req now s).1 = .ok doc) ↔
      postInput.imageUrl ≠ "") ∧
    (∀ doc, (Resolvers.updatePost p._id postInput req now s).1 = .ok doc →
      ∃ q, findPostById (Resolvers.updatePost p._id postInput req now s).2.posts p._id = some q ∧
        q._id = p._id ∧ q.creator = p.creator ∧ q.createdAt = p.createdAt ∧
        q.title = postInput.title ∧ q.content = postInput.content ∧
        (postInput.imageUrl = "undefined" → q.imageUrl = p.imageUrl) ∧
        (postInput.imageUrl ≠ "undefined" → q.imageUrl = postInput.imageUrl) ∧
        (q.imageUrl ≠ p.imageUrl → postInput.imageUrl ≠ "undefined") ∧
        doc._id = q._id ∧ doc.title = q.title ∧ doc.content = q.content ∧
        doc.imageUrl = q.imageUrl) ∧
    (∀ t : String,
      validatorLength t +
          (t.toList.count (Char.ofNat 0xFE0F) + t.toList.count (Char.ofNat 0xFE0E)) =
        t.length) := by
  have hfind := findPostById_of_mem s.posts p hs.1 hp
  obtain ⟨c, hc⟩ := findUserById_of_exists s.users p.creator (hs.2.2.1 p hp)
  have hstored : p.imageUrl ≠ "" := by
    have := hs.2.2.2 p hp
    intro e
    simp [Post.requiredPaths, e] at this
  by_cases himage : postInput.imageUrl = ""
  · rw [updatePost_empty_image s p req postInput now c hfind hc hauth huser htitle hcontent
      himage]
    refine ⟨⟨fun ⟨doc, hd⟩ => ?_, fun h => absurd himage h⟩, fun doc hd => ?_,
      validatorLength_add_selectors⟩
    · simp at hd
    · simp at hd
  · rw [updatePost_by_creator s p req postInput now c hfind hc hauth huser htitle hcontent
      himage hstored]
    refine ⟨⟨fun _ => himage, fun _ => ⟨_, rfl⟩⟩, fun doc hd => ?_,
      validatorLength_add_selectors⟩
    simp only [Except.ok.injEq] at hd
    subst hd
    refine ⟨_, findPostById_savePost _ p s.posts hfind, rfl, rfl, rfl, rfl, rfl, ?_, ?_, ?_,
      rfl, rfl, rfl, rfl⟩
    · intro h
      simp [h]
    · intro h
      simp [h]
    · intro h hsent
      apply h
      simp [hsent]

/-- C11, concrete instance: `alice` edits her post and sends the sentinel; the stored image
reference stays. -/
theorem updatePost_sets_fields_witness :
    sampleState.Consistent ∧ post10 ∈ sampleState.posts ∧
    ∃ q, findPostById (Resolvers.updatePost 10
        { title := "Edited", content := "Hello again", imageUrl := "undefined" }
        { isAuth := true, userId := some 1 } 300 sampleState).2.posts 10 = some q ∧
      q.title = "Edited" ∧ q.imageUrl = "images/a.png" := by
  have h := updatePost_sets_fields sampleState post10 { isAuth := true, userId := some 1 }
    { title := "Edited", content := "Hello again", imageUrl := "undefined" } 300
    (by decide) (by decide) rfl rfl (by decide) (by decide)
  obtain ⟨doc, hd⟩ := h.1.2 (by decide)
  obtain ⟨q, hq, _, _, _, ht, _, himg, _⟩ := h.2.1 doc hd
  exact ⟨by decide, by decide, q, hq, ht, himg rfl⟩

/-! ### Image upload -/

/-- C12 as stated fails: an authenticated upload request that names an old image but carries no
file is answered with 200 "No file provided!" and the old image is not deleted. -/
theorem putPostImage_no_file_keeps_old_image :
    App.putPostImage { isAuth := true, image := none, oldPath := some "images/a.png" }
        sampleState =
      ({ status := 200, message := "No file provided!", filePath := none, data := [] },
        sampleState) ∧
    (App.putPostImage { isAuth := true, image := none, oldPath := some "images/a.png" }
        sampleState).2.unlinked = [] :=
  ⟨by rfl, by rfl⟩

/-- C12 (amended): for every authenticated upload request that supplies a prior image reference,
the old file is deleted exactly when the request carries an accepted file (response 201 with
the file path); when it carries no accepted file the response is 200 "No file provided!" and no
deletion is issued. -/
theorem putPostImage_old_image (req : App.ImageReq) (s : State) (oldPath : String)
    (hauth : req.isAuth = true) (hold : req.oldPath = some oldPath) (hne : oldPath ≠ "") :
    (∀ path, req.file = some path →
      App.putPostImage req s =
        ({ status := 201, message := "File stored.", filePath := some path, data := [] },
          { s with unlinked := s.unlinked ++ [oldPath] })) ∧
    (req.file = none →
      App.putPostImage req s =
        ({ status := 200, message := "No file provided!", filePath := none, data := [] }, s)) := by
  refine ⟨fun path hfile => ?_, fun hfile => ?_⟩
  · simp [App.putPostImage, App.postImage, hauth, hfile, hold, hne, clearImage]
  · simp [App.putPostImage, App.postImage, hauth, hfile]

/-- C12 (amended), concrete instance: an accepted PNG replaces `images/a.png`. -/
theorem putPostImage_old_image_witness :
    ({ isAuth := true, image := some { mimetype := "image/png", path := "images/n.png" },
       oldPath := some "images/a.png" } : App.ImageReq).isAuth = true ∧
    App.putPostImage
        { isAuth := true, image := some { mimetype := "image/png", path := "images/n.png" },
          oldPath := some "images/a.png" } sampleState =
      ({ status := 201, message := "File stored.", filePath := some "images/n.png",
         data := [] },
        { sampleState with unlinked := sampleState.unlinked ++ ["images/a.png"] }) :=
  ⟨rfl,
    (putPostImage_old_image
      { isAuth := true, image := some { mimetype := "image/png", path := "images/n.png" },
        oldPath := some "images/a.png" } sampleState "images/a.png" rfl rfl (by decide)).1
      "images/n.png" (by decide)⟩

/-- An upload request with `isAuth` false is answered by the global error handler with status
500 and the message "Not authenticated!"; nothing is deleted and no file path is returned. -/
theorem putPostImage_unauthenticated (req : App.ImageReq) (s : State)
    (h : req.isAuth = false) :
    App.putPostImage req s =
      ({ status := 500, message := "Not authenticated!", filePath := none, data := [] }, s) := by
  simp [App.putPostImage, App.postImage, h, App.errorHandler]

/-- C13, the code at a failing input: an unauthenticated upload of a PNG that names an old image
gets status 500, where the claim says 401; the old image is kept and no path is returned. -/
theorem putPostImage_unauthenticated_status_500 :
    App.putPostImage
        { isAuth := false, image := some { mimetype := "image/png", path := "images/n.png" },
          oldPath := some "images/a.png" } sampleState =
      ({ status := 500, message := "Not authenticated!", filePath := none, data := [] },
        sampleState) :=
  by rfl

/-! ### Signup -/

/-- An e-mail address that no stored user has is not found. -/
theorem findUserByEmail_none (us : List User) (email : String)
    (h : ∀ u ∈ us, u.email ≠ email) : findUserByEmail us email = none := by
  simp only [findUserByEmail, List.find?_eq_none]
  intro u hu
  simpa using h u hu

/-- An e-mail address that a stored user has is found. -/
theorem findUserByEmail_some (us : List User) (email : String)
    (h : ∃ u ∈ us, u.email = email) : ∃ u, findUserByEmail us email = some u := by
  obtain ⟨u, hu, he⟩ := h
  cases hf : findUserByEmail us email with
  | some v => exact ⟨v, rfl⟩
  | none =>
    simp only [findUserByEmail, List.find?_eq_none] at hf
    exact absurd (by simpa using he) (hf u hu)

/-- A signup leaves the stores as they were or appends one user whose e-mail address no stored
user had. -/
theorem createUser_state (libs : SignupLibs) (userInput : UserInput) (s : State) :
    (Resolvers.createUser libs userInput s).2 = s ∨
    ∃ user, (∀ u ∈ s.users, u.email ≠ user.email) ∧ user._id = newObjectId s ∧
      user.posts = [] ∧
      (Resolvers.createUser libs userInput s).2 =
        { s with users := s.users ++ [user], lastId := user._id } := by
  simp only [Resolvers.createUser]
  split
  · exact Or.inl rfl
  · split
    · exact Or.inl rfl
    · rename_i hnone
      split
      · exact Or.inl rfl
      · refine Or.inr ⟨_, ?_, rfl, rfl, rfl⟩
        intro u hu
        simp only [findUserByEmail, List.find?_eq_none] at hnone
        simpa using hnone u hu

/-- A signup keeps e-mail addresses unique. -/
theorem createUser_emailsUnique (libs : SignupLibs) (userInput : UserInput) (s : State)
    (hs : s.EmailsUnique) : (Resolvers.createUser libs userInput s).2.EmailsUnique := by
  rcases createUser_state libs userInput s with h | ⟨user, hnew, _, _, h⟩
  · rw [h]; exact hs
  · rw [h]
    simp only [State.EmailsUnique, List.map_append, List.map_cons, List.map_nil]
    refine List.Nodup.append hs (List.nodup_singleton _) ?_
    intro e he1 he2
    obtain ⟨u, hu, hue⟩ := List.mem_map.1 he1
    simp only [List.mem_singleton] at he2
    exact hnew u hu (hue.trans he2)

/-- Every run of signups keeps e-mail addresses unique. -/
theorem runSignups_emailsUnique (libs : SignupLibs) (inputs : List UserInput) (s : State)
    (hs : s.EmailsUnique) : (runSignups libs inputs s).EmailsUnique := by
  induction inputs generalizing s with
  | nil => exact hs
  | cons i rest ih =>
    simp only [runSignups, List.foldl_cons]
    exact ih _ (createUser_emailsUnique libs i s hs)

/-- What `createUser` does on an e-mail address that passes `isEmail` and no stored user has, a
password the validator counts at 5 or more, and a non-empty name. -/
theorem createUser_valid (libs : SignupLibs) (userInput : UserInput) (s : State)
    (hemail : libs.isEmail userInput.email = true)
    (hpw : 5 ≤ validatorLength userInput.password)
    (hnew : ∀ u ∈ s.users, u.email ≠ userInput.email) (hname : userInput.name ≠ "") :
    Resolvers.createUser libs userInput s =
      (.ok { _id := newObjectId s, email := userInput.email, name := userInput.name,
             password := libs.hash userInput.password, status := "I am new!", posts := [] },
       { s with
         users := s.users ++ [{ _id := newObjectId s, email := userInput.email,
                                name := userInput.name,
                                password := libs.hash userInput.password,
                                status := "I am new!", posts := [] }],
         lastId := newObjectId s }) := by
  have hp0 := length_ne_zero_of_five_le _ hpw
  have hnone := findUserByEmail_none s.users userInput.email hnew
  have hne : userInput.email ≠ "" := by
    intro e
    rw [e, libs.isEmail_empty] at hemail
    exact absurd hemail (by decide)
  simp [Resolvers.createUser, validateUserInput, hemail, hpw, hp0, hnone, User.requiredPaths,
    hne, hname]

/-- C14 as stated fails, twice over, for every e-mail test that accepts "a@b.com". On the
empty stores, the signup with the password made of "abcd" and the variation selector U+FE0E,
which has length 5 but is counted as 4 by the validator, is refused with "Password too
short!"; and the signup with the password "abcde" and an empty name is rejected by the User
schema. Nothing is stored in either case. -/
theorem signup_length5_password_fails :
    emptyState.EmailsUnique ∧ emptyState.users = [] ∧
    ("abcd" ++ String.singleton (Char.ofNat 0xFE0E)).length = 5 ∧ "abcde".length = 5 ∧
    ∀ libs : SignupLibs, libs.isEmail "a@b.com" = true →
      Resolvers.createUser libs
          { email := "a@b.com", name := "Ann",
            password := "abcd" ++ String.singleton (Char.ofNat 0xFE0E) } emptyState =
        (.error (.error { message := "Invalid input.", code := some 422, statusCode := none,
                          data := ["Password too short!"] }), emptyState) ∧
      Resolvers.createUser libs { email := "a@b.com", name := "", password := "abcde" }
          emptyState =
        (.error (.validationError ["name"]), emptyState) := by
  refine ⟨by decide, rfl, by decide, by decide, fun libs hemail => ⟨?_, ?_⟩⟩
  · have h4 : ¬ 5 ≤ validatorLength ("abcd" ++ String.singleton (Char.ofNat 0xFE0E)) := by
      decide
    simp [Resolvers.createUser, validateUserInput, hemail, h4, invalidInput]
  · have h5 : 5 ≤ validatorLength "abcde" := by decide
    have hlen : ¬ "abcde".length = 0 := by decide
    have hne : ("a@b.com" : String) ≠ "" := by decide
    have hnone : findUserByEmail emptyState.users "a@b.com" = none := rfl
    simp [Resolvers.createUser, validateUserInput, hemail, h5, hlen, hnone, User.requiredPaths,
      hne]

/-- C14 (amended): starting from a user store in which no two users share an e-mail address,
every sequence of `createUser` calls leaves such a store; a signup with an e-mail address that
passes `isEmail` and no stored user has, a password that the validator counts at 5 or more
(characters other than the variation selectors U+FE0F and U+FE0E) and a non-empty name succeeds,
stores the new user and returns it with its new id; a second signup with the same e-mail
address then fails with "User exists already!", which has no code and is shown with status 500,
and leaves the stores unchanged. A password counted below 5 is refused with "Password too
short!" and an empty name is rejected by the User schema; both leave the stores unchanged. -/
theorem signup_keeps_emails_unique (libs : SignupLibs) (s : State) (hs : s.EmailsUnique) :
    (∀ inputs, (runSignups libs inputs s).EmailsUnique) ∧
    (∀ userInput, libs.isEmail userInput.email = true →
      5 ≤ validatorLength userInput.password →
      (∀ u ∈ s.users, u.email ≠ userInput.email) → userInput.name ≠ "" →
      ∃ user s1, Resolvers.createUser libs userInput s = (.ok user, s1) ∧
        user._id = newObjectId s ∧ user.email = userInput.email ∧
        user.name = userInput.name ∧ user.password = libs.hash userInput.password ∧
        s1.users = s.users ++ [user] ∧ s1.posts = s.posts ∧ s1.EmailsUnique ∧
        ∀ again, again.email = userInput.email → 5 ≤ validatorLength again.password →
          Resolvers.createUser libs again s1 =
            (.error (.error { message := "User exists already!", code := none,
                              statusCode := none, data := [] }), s1) ∧
          (App.formatError { message := "User exists already!", code := none,
                             statusCode := none, data := [] }).status = 500) ∧
    (∀ userInput, libs.isEmail userInput.email = true →
      validatorLength userInput.password < 5 →
      Resolvers.createUser libs userInput s =
        (.error (.error { message := "Invalid input.", code := some 422, statusCode := none,
                          data := ["Password too short!"] }), s)) ∧
    (∀ userInput, libs.isEmail userInput.email = true →
      5 ≤ validatorLength userInput.password →
      (∀ u ∈ s.users, u.email ≠ userInput.email) → userInput.name = "" →
      Resolvers.createUser libs userInput s = (.error (.validationError ["name"]), s)) ∧
    (∀ t : String,
      validatorLength t +
          (t.toList.count (Char.ofNat 0xFE0F) + t.toList.count (Char.ofNat 0xFE0E)) =
        t.length) := by
  refine ⟨fun inputs => runSignups_emailsUnique libs inputs s hs, ?_, ?_, ?_,
    validatorLength_add_selectors⟩
  · intro userInput hemail hpw hnew hname
    have hrun := createUser_valid libs userInput s hemail hpw hnew hname
    refine ⟨_, _, hrun, rfl, rfl, rfl, rfl, rfl, rfl, ?_, ?_⟩
    · have := createUser_emailsUnique libs userInput s hs
      rw [hrun] at this
      exact this
    · intro again hsame hpw2
      have hq0 := length_ne_zero_of_five_le _ hpw2
      obtain ⟨v, hv⟩ := findUserByEmail_some
        (s.users ++ [{ _id := newObjectId s, email := userInput.email, name := userInput.name,
                       password := libs.hash userInput.password, status := "I am new!",
                       posts := [] }]) again.email
        ⟨_, List.mem_append_right _ (List.mem_singleton_self _), hsame.symm⟩
      refine ⟨?_, rfl⟩
      simp [Resolvers.createUser, validateUserInput, hsame, hemail, hpw2, hq0, userExists]
      rw [hsame] at hv
      simp [hv]
  · intro userInput hemail hpw
    have h5 : ¬ 5 ≤ validatorLength userInput.password := by omega
    simp [Resolvers.createUser, validateUserInput, hemail, h5, invalidInput]
  · intro userInput hemail hpw hnew hname
    have hp0 := length_ne_zero_of_five_le _ hpw
    have hnone := findUserByEmail_none s.users userInput.email hnew
    have hne : userInput.email ≠ "" := by
      intro e
      rw [e, libs.isEmail_empty] at hemail
      exact absurd hemail (by decide)
    simp [Resolvers.createUser, validateUserInput, hemail, hpw, hp0, hnone, User.requiredPaths,
      hne, hname]

/-- C14 (amended), concrete instance: on the empty stores the signup of "a@b.com" with password
"abcde" succeeds, and the same signup again is refused. -/
theorem signup_keeps_emails_unique_witness :
    emptyState.EmailsUnique ∧
    ∃ user s1,
      Resolvers.createUser sampleLibs { email := "a@b.com", name := "Ann", password := "abcde" }
        emptyState = (.ok user, s1) ∧
      user._id = 1 ∧
      Resolvers.createUser sampleLibs { email := "a@b.com", name := "Ann", password := "abcde" }
        s1 =
        (.error (.error { message := "User exists already!", code := none,
                          statusCode := none, data := [] }), s1) := by
  obtain ⟨user, s1, h1, hid, _, _, _, _, _, _, h2⟩ :=
    (signup_keeps_emails_unique sampleLibs emptyState (by decide)).2.1
      { email := "a@b.com", name := "Ann", password := "abcde" } (by decide) (by decide)
      (by decide) (by decide)
  exact ⟨by decide, user, s1, h1, hid.trans (by decide),
    (h2 { email := "a@b.com", name := "Ann", password := "abcde" } rfl (by decide)).1⟩

/-! ### Back-references -/

/-- Every stored user has an id below the next fresh one. -/
theorem newObjectId_gt_users (s : State) (u : User) (hu : u ∈ s.users) :
    u._id < newObjectId s := by
  have key : ∀ (l : List Nat) (b x : Nat), x ∈ l → x ≤ l.foldr max b := by
    intro l b x hx
    induction l with
    | nil => cases hx
    | cons a t ih =>
      rcases List.mem_cons.1 hx with h | h
      · subst h; exact Nat.le_max_left _ _
      · exact Nat.le_trans (ih h) (Nat.le_max_right _ _)
  have hmem : u._id ∈ (s.users.map (fun u => u._id)) ++ (s.posts.map (fun p => p._id)) :=
    List.mem_append_left _ (List.mem_map_of_mem _ hu)
  exact Nat.lt_succ_of_le (key _ _ _ hmem)

/-- The lockstep reads the stores only through the keys of users and posts. -/
theorem lockstep_iff_keys (s : State) :
    s.Lockstep ↔
      ∀ uk ∈ s.users.map userKey,
        uk.2.Nodup ∧
        (∀ id ∈ uk.2, (id, uk.1) ∈ s.posts.map postKey) ∧
        (∀ pk ∈ s.posts.map postKey, pk.2 = uk.1 → pk.1 ∈ uk.2) := by
  simp only [State.Lockstep, userKey, postKey, List.mem_map, Prod.mk.injEq]
  constructor
  · rintro h uk ⟨u, hu, rfl⟩
    obtain ⟨h1, h2, h3⟩ := h u hu
    refine ⟨h1, h2, ?_⟩
    rintro pk ⟨p, hp, rfl⟩ hc
    exact h3 p hp hc
  · intro h u hu
    obtain ⟨h1, h2, h3⟩ := h (u._id, u.posts) ⟨u, hu, rfl⟩
    exact ⟨h1, h2, fun p hp hc => h3 (p._id, p.creator) ⟨p, hp, rfl⟩ hc⟩

/-- Stores with the same keys are in lockstep together. -/
theorem lockstep_of_keys (s t : State)
    (hu : t.users.map userKey = s.users.map userKey)
    (hp : t.posts.map postKey = s.posts.map postKey) (hs : s.Lockstep) : t.Lockstep := by
  rw [lockstep_iff_keys] at hs ⊢
  rw [hu, hp]
  exact hs

/-- Saving a user with the `posts` list it was loaded with keeps the user keys. -/
theorem saveUser_keys (u u0 : User) (us : List User)
    (h : findUserById us (some u._id) = some u0) (hposts : u0.posts = u.posts) :
    (saveUser u us).map userKey = us.map userKey := by
  induction us with
  | nil => rfl
  | cons x xs ih =>
    by_cases hx : x._id = u._id
    · have hx0 : x = u0 := by
        simpa [findUserById, List.find?_cons, hx] using h
      subst hx0
      simp [saveUser, hx, userKey, hposts]
    · have hb : (x._id == u._id) = false := by simpa using hx
      simp only [findUserById, List.find?_cons, hb] at h ih
      simp [saveUser, hx, ih h]

/-- Saving a post with the creator it was loaded with keeps the post keys. -/
theorem savePost_keys (p p0 : Post) (ps : List Post)
    (h : findPostById ps p._id = some p0) (hcreator : p0.creator = p.creator) :
    (savePost p ps).map postKey = ps.map postKey := by
  induction ps with
  | nil => rfl
  | cons x xs ih =>
    by_cases hx : x._id = p._id
    · have hx0 : x = p0 := by
        simpa [findPostById, List.find?_cons, hx] using h
      subst hx0
      simp [savePost, hx, postKey, hcreator]
    · have hb : (x._id == p._id) = false := by simpa using hx
      simp only [findPostById, List.find?_cons, hb] at h ih
      simp [savePost, hx, ih h]

/-- A signup keeps the stores consistent. -/
theorem createUser_consistent (libs : SignupLibs) (userInput : UserInput) (s : State)
    (hs : s.Consistent) : (Resolvers.createUser libs userInput s).2.Consistent := by
  rcases createUser_state libs userInput s with h | ⟨user, _, hid, _, h⟩
  · rw [h]; exact hs
  · rw [h]
    refine ⟨hs.1, ?_, ?_, hs.2.2.2⟩
    · simp only [List.map_append, List.map_cons, List.map_nil]
      refine List.Nodup.append hs.2.1 (List.nodup_singleton _) ?_
      intro i hi1 hi2
      obtain ⟨u, hu, hui⟩ := List.mem_map.1 hi1
      simp only [List.mem_singleton] at hi2
      exact absurd (hui.trans (hi2.trans hid)) (Nat.ne_of_lt (newObjectId_gt_users s u hu))
    · intro p hp
      obtain ⟨u, hu, huc⟩ := hs.2.2.1 p hp
      exact ⟨u, List.mem_append_left _ hu, huc⟩

/-- A signup keeps the back-references in lockstep. -/
theorem createUser_lockstep (libs : SignupLibs) (userInput : UserInput) (s : State)
    (hc : s.Consistent) (hs : s.Lockstep) :
    (Resolvers.createUser libs userInput s).2.Lockstep := by
  rcases createUser_state libs userInput s with h | ⟨user, _, hid, hposts, h⟩
  · rw [h]; exact hs
  · rw [h]
    intro u hu
    rcases List.mem_append.1 hu with hu | hu
    · exact hs u hu
    · simp only [List.mem_singleton] at hu
      subst hu
      rw [hposts]
      refine ⟨List.nodup_nil, fun id hid0 => absurd hid0 (List.not_mem_nil _), ?_⟩
      intro p hp hpc
      obtain ⟨v, hv, hvc⟩ := hc.2.2.1 p hp
      exact absurd (hvc.trans (hpc.trans hid)) (Nat.ne_of_lt (newObjectId_gt_users s v hv))

/-- What `createPost` does to the stores: nothing when it fails; when it succeeds it appends
one post, under a fresh id and with the acting user as creator, and appends that id to the
acting user's list. -/
theorem createPost_state (postInput : PostInput) (req : Req) (now : Nat) (s : State) :
    ((Resolvers.createPost postInput req now s).2 = s ∧
      ∀ doc, (Resolvers.createPost postInput req now s).1 ≠ .ok doc) ∨
    ∃ user post, findUserById s.users req.userId = some user ∧
      post._id = newObjectId s ∧ post.creator = user._id ∧
      (∃ doc, (Resolvers.createPost postInput req now s).1 = .ok doc ∧ doc._id = post._id) ∧
      (Resolvers.createPost postInput req now s).2 =
        { s with
          posts := s.posts ++ [post], lastId := post._id,
          users := saveUser { user with posts := user.posts ++ [post._id] } s.users } := by
  simp only [Resolvers.createPost]
  split
  · exact Or.inl ⟨rfl, fun doc h => by simp at h⟩
  · split
    · exact Or.inl ⟨rfl, fun doc h => by simp at h⟩
    · split
      · exact Or.inl ⟨rfl, fun doc h => by simp at h⟩
      · rename_i user huser
        split
        · exact Or.inl ⟨rfl, fun doc h => by simp at h⟩
        · exact Or.inr ⟨user,
            { _id := newObjectId s, title := postInput.title, imageUrl := postInput.imageUrl,
              content := postInput.content, creator := user._id, createdAt := now,
              updatedAt := now },
            huser, rfl, rfl, ⟨_, rfl, rfl⟩, rfl⟩

/-- In consistent stores, a member of the users after a save is the saved record or a stored
user with another id. -/
theorem mem_saveUser (u v : User) (us : List User)
    (hnd : (us.map (fun w => w._id)).Nodup) (hv : v ∈ saveUser u us) :
    v = u ∨ (v ∈ us ∧ v._id ≠ u._id) := by
  rw [saveUser_eq_map u us hnd] at hv
  obtain ⟨w, hw, hwv⟩ := List.mem_map.1 hv
  by_cases hid : w._id = u._id
  · simp only [hid, if_true] at hwv
    exact Or.inl hwv.symm
  · simp only [hid, if_false] at hwv
    subst hwv
    exact Or.inr ⟨hw, hid⟩

/-- The resolver `createPost` keeps the back-references in lockstep. -/
theorem createPost_lockstep (postInput : PostInput) (req : Req) (now : Nat) (s : State)
    (hc : s.Consistent) (hs : s.Lockstep) :
    (Resolvers.createPost postInput req now s).2.Lockstep := by
  rcases createPost_state postInput req now s with ⟨h, _⟩ | ⟨user, post, huser, hid, hcr, _, h⟩
  · rw [h]; exact hs
  · rw [h]
    have humem := findUserById_mem _ _ _ huser
    obtain ⟨hu1, hu2, hu3⟩ := hs user humem
    have hfresh : ∀ q ∈ s.posts, q._id ≠ post._id := fun q hq e =>
      absurd (e.trans hid) (Nat.ne_of_lt (newObjectId_gt_posts s q hq))
    intro v hv
    rcases mem_saveUser _ v s.users hc.2.1 hv with hv | ⟨hv, hvid⟩
    · subst hv
      refine ⟨?_, ?_, ?_⟩
      · refine List.Nodup.append hu1 (List.nodup_singleton _) ?_
        intro i hi1 hi2
        simp only [List.mem_singleton] at hi2
        obtain ⟨q, hq, hqi, _⟩ := hu2 i hi1
        exact hfresh q hq (hqi.trans hi2)
      · intro i hi
        rcases List.mem_append.1 hi with hi | hi
        · obtain ⟨q, hq, hqi, hqc⟩ := hu2 i hi
          exact ⟨q, List.mem_append_left _ hq, hqi, hqc⟩
        · simp only [List.mem_singleton] at hi
          exact ⟨post, List.mem_append_right _ (List.mem_singleton_self _), hi.symm, hcr⟩
      · intro q hq hqc
        rcases List.mem_append.1 hq with hq | hq
        · exact List.mem_append_left _ (hu3 q hq hqc)
        · simp only [List.mem_singleton] at hq
          subst hq
          exact List.mem_append_right _ (List.mem_singleton_self _)
    · obtain ⟨hv1, hv2, hv3⟩ := hs v hv
      refine ⟨hv1, ?_, ?_⟩
      · intro i hi
        obtain ⟨q, hq, hqi, hqc⟩ := hv2 i hi
        exact ⟨q, List.mem_append_left _ hq, hqi, hqc⟩
      · intro q hq hqc
        rcases List.mem_append.1 hq with hq | hq
        · exact hv3 q hq hqc
        · simp only [List.mem_singleton] at hq
          subst hq
          exact absurd (hqc.symm.trans hcr) hvid

/-- The resolver `updatePost` keeps the back-references in lockstep. -/
theorem updatePost_lockstep (id : ObjectId) (postInput : PostInput) (req : Req) (now : Nat)
    (s : State) (hs : s.Lockstep) :
    (Resolvers.updatePost id postInput req now s).2.Lockstep := by
  simp only [Resolvers.updatePost]
  split
  · exact hs
  · split
    · exact hs
    · rename_i post hpost
      have hpid : post._id = id := by
        have := List.find?_some hpost
        simpa using this
      split
      · exact hs
      · exact hs
      · split
        · exact hs
        · split
          · exact hs
          · split
            · exact hs
            · refine lockstep_of_keys s _ rfl ?_ hs
              exact savePost_keys _ post s.posts (by rw [← hpid] at hpost; exact hpost) rfl

/-- The resolver `updateStatus` keeps the back-references in lockstep. -/
theorem updateStatus_lockstep (status : String) (req : Req) (s : State) (hs : s.Lockstep) :
    (Resolvers.updateStatus status req s).2.Lockstep := by
  simp only [Resolvers.updateStatus]
  split
  · exact hs
  · split
    · exact hs
    · rename_i u hu
      have hid := findUserById_id _ _ _ hu
      refine lockstep_of_keys s _ ?_ rfl hs
      exact saveUser_keys _ u s.users (by rw [hid] at hu; exact hu) rfl

/-- What `deletePost` does to consistent stores: nothing when it fails; when it succeeds it
requests the deletion of the image, removes the post and removes its id from the list of the
creator, who is the acting user. -/
theorem deletePost_state (id : ObjectId) (req : Req) (s : State) (hc : s.Consistent) :
    ((Resolvers.deletePost id req s).2 = s ∧ (Resolvers.deletePost id req s).1 ≠ .ok true) ∨
    ∃ p c, p ∈ s.posts ∧ p._id = id ∧ req.userId = some p.creator ∧
      findUserById s.users (some p.creator) = some c ∧
      Resolvers.deletePost id req s =
        (.ok true,
          { s with
            unlinked := s.unlinked ++ [p.imageUrl],
            posts := removePostById id s.posts,
            users := saveUser { c with posts := c.posts.filter (fun r => r != id) } s.users }) := by
  by_cases hauth : req.isAuth = true
  · cases hfind : findPostById s.posts id with
    | none =>
      refine Or.inl ?_
      simp [Resolvers.deletePost, hauth, hfind]
    | some p =>
      have hpmem : p ∈ s.posts := List.mem_of_find?_eq_some hfind
      have hpid : p._id = id := by
        have := List.find?_some hfind
        simpa using this
      cases huser : req.userId with
      | none =>
        refine Or.inl ?_
        simp [Resolvers.deletePost, hauth, hfind, huser]
      | some userId =>
        by_cases hown : p.creator = userId
        · obtain ⟨c, hcu⟩ := findUserById_of_exists s.users p.creator (hc.2.2.1 p hpmem)
          refine Or.inr ⟨p, c, hpmem, hpid, by rw [hown], hcu, ?_⟩
          have := deletePost_by_creator s p req c (by rw [hpid]; exact hfind) hcu hauth
            (by rw [huser, hown])
          rw [hpid] at this
          exact this
        · refine Or.inl ?_
          simp [Resolvers.deletePost, hauth, hfind, huser, hown]
  · refine Or.inl ?_
    simp [Resolvers.deletePost, hauth]

/-- The resolver `deletePost` keeps the back-references in lockstep. -/
theorem deletePost_lockstep (id : ObjectId) (req : Req) (s : State)
    (hc : s.Consistent) (hs : s.Lockstep) : (Resolvers.deletePost id req s).2.Lockstep := by
  rcases deletePost_state id req s hc with ⟨h, _⟩ | ⟨p, c, hpmem, hpid, _, hcu, h⟩
  · rw [h]; exact hs
  · rw [h]
    have hcmem := findUserById_mem _ _ _ hcu
    have hcid : c._id = p.creator := by
      have := findUserById_id _ _ _ hcu
      simpa using this.symm
    have hposts : removePostById id s.posts = s.posts.filter (fun q => q._id != id) :=
      removePostById_eq_filter id s.posts hc.1
    have honly : ∀ q ∈ s.posts, q._id = id → q = p := fun q hq e =>
      List.inj_on_of_nodup_map hc.1 hq hpmem (e.trans hpid.symm)
    obtain ⟨hc1, hc2, hc3⟩ := hs c hcmem
    intro v hv
    show v.posts.Nodup ∧
      (∀ i ∈ v.posts, ∃ q ∈ removePostById id s.posts, q._id = i ∧ q.creator = v._id) ∧
      (∀ q ∈ removePostById id s.posts, q.creator = v._id → q._id ∈ v.posts)
    rw [hposts]
    rcases mem_saveUser _ v s.users hc.2.1 hv with hv | ⟨hv, hvid⟩
    · subst hv
      refine ⟨hc1.filter _, ?_, ?_⟩
      · intro i hi
        simp only [List.mem_filter, bne_iff_ne, ne_eq] at hi
        obtain ⟨q, hq, hqi, hqc⟩ := hc2 i hi.1
        refine ⟨q, ?_, hqi, hqc⟩
        simp only [List.mem_filter, bne_iff_ne, ne_eq]
        exact ⟨hq, fun e => hi.2 (hqi.symm.trans e)⟩
      · intro q hq hqc
        simp only [List.mem_filter, bne_iff_ne, ne_eq] at hq ⊢
        exact ⟨hc3 q hq.1 hqc, hq.2⟩
    · obtain ⟨hv1, hv2, hv3⟩ := hs v hv
      refine ⟨hv1, ?_, ?_⟩
      · intro i hi
        obtain ⟨q, hq, hqi, hqc⟩ := hv2 i hi
        refine ⟨q, ?_, hqi, hqc⟩
        simp only [List.mem_filter, bne_iff_ne, ne_eq]
        refine ⟨hq, fun e => hvid ?_⟩
        have hqp := honly q hq e
        rw [hqp] at hqc
        exact hqc.symm.trans hcid.symm
      · intro q hq hqc
        simp only [List.mem_filter] at hq
        exact hv3 q hq.1 hqc

/-- Every call keeps the stores consistent and the back-references in lockstep. -/
theorem call_keeps_invariant (c : Call) (s : State) (hc : s.Consistent) (hs : s.Lockstep) :
    (c.run s).Consistent ∧ (c.run s).Lockstep := by
  cases c with
  | createUser libs userInput =>
    exact ⟨createUser_consistent libs userInput s hc, createUser_lockstep libs userInput s hc hs⟩
  | createPost postInput req now =>
    exact ⟨createPost_consistent postInput req now s hc,
      createPost_lockstep postInput req now s hc hs⟩
  | updatePost id postInput req now =>
    exact ⟨updatePost_consistent id postInput req now s hc,
      updatePost_lockstep id postInput req now s hs⟩
  | deletePost id req =>
    exact ⟨deletePost_consistent id req s hc, deletePost_lockstep id req s hc hs⟩
  | updateStatus status req =>
    exact ⟨updateStatus_consistent status req s hc, updateStatus_lockstep status req s hs⟩

/-- Every run of calls keeps the stores consistent and the back-references in lockstep. -/
theorem runCalls_keeps_invariant (calls : List Call) (s : State)
    (hc : s.Consistent) (hs : s.Lockstep) :
    (runCalls calls s).Consistent ∧ (runCalls calls s).Lockstep := by
  induction calls generalizing s with
  | nil => exact ⟨hc, hs⟩
  | cons c rest ih =>
    simp only [runCalls, List.foldl_cons]
    exact ih _ (call_keeps_invariant c s hc hs).1 (call_keeps_invariant c s hc hs).2

/-- In lockstep, an id is in a user's list exactly when it is the id of a stored post created by
that user, and then it occurs once. -/
theorem lockstep_reading (s : State) (hs : s.Lockstep) (u : User) (hu : u ∈ s.users)
    (id : ObjectId) :
    (id ∈ u.posts ↔ ∃ p ∈ s.posts, p._id = id ∧ p.creator = u._id) ∧
    (id ∈ u.posts → u.posts.count id = 1) := by
  obtain ⟨h1, h2, h3⟩ := hs u hu
  refine ⟨⟨fun h => h2 id h, ?_⟩, fun h => List.count_eq_one_of_mem h1 h⟩
  rintro ⟨p, hp, hpi, hpc⟩
  rw [← hpi]
  exact h3 p hp hpc

/-- In consistent stores in lockstep, a successful `createPost` appends the id of the new post
to the list of the acting user, where it was not before, and changes no other user. -/
theorem createPost_adds_reference (postInput : PostInput) (req : Req) (now : Nat) (s : State)
    (hc : s.Consistent) (hs : s.Lockstep) (doc : PostDoc)
    (hok : (Resolvers.createPost postInput req now s).1 = .ok doc) :
    ∃ user, findUserById s.users req.userId = some user ∧ doc._id ∉ user.posts ∧
      (∀ p ∈ s.posts, p._id ≠ doc._id) ∧
      (∃ post, findPostById (Resolvers.createPost postInput req now s).2.posts doc._id =
          some post ∧ post.creator = user._id) ∧
      (Resolvers.createPost postInput req now s).2.users =
        s.users.map (fun u =>
          if u._id = user._id then { u with posts := u.posts ++ [doc._id] } else u) := by
  rcases createPost_state postInput req now s with
    ⟨_, hfail⟩ | ⟨user, post, huser, hid, hcr, ⟨doc1, hd1, hdid⟩, h⟩
  · exact absurd hok (hfail doc)
  · have hdoc : doc = doc1 := by
      rw [hok] at hd1
      simpa using hd1
    subst hdoc
    have humem := findUserById_mem _ _ _ huser
    have hfresh : ∀ q ∈ s.posts, q._id ≠ doc._id := fun q hq e =>
      absurd (e.trans (hdid.trans hid)) (Nat.ne_of_lt (newObjectId_gt_posts s q hq))
    refine ⟨user, huser, ?_, hfresh, ⟨post, ?_, hcr⟩, ?_⟩
    · intro hmem
      obtain ⟨q, hq, hqi, _⟩ := (hs user humem).2.1 _ hmem
      exact hfresh q hq hqi
    · rw [h, hdid]
      exact findPostById_append_new s.posts post (fun q hq => by rw [← hdid]; exact hfresh q hq)
    · rw [h]
      show saveUser _ s.users = _
      rw [saveUser_eq_map _ _ hc.2.1, hdid]
      apply List.map_congr_left
      intro u hu
      by_cases hui : u._id = user._id
      · have : u = user := List.inj_on_of_nodup_map hc.2.1 hu humem hui
        subst this
        simp
      · simp [hui]

/-- In consistent stores in lockstep, a successful `deletePost` removes the id of the deleted
post, which occurs once, from the list of its creator and changes no other user. -/
theorem deletePost_removes_reference (id : ObjectId) (req : Req) (s : State)
    (hc : s.Consistent) (hs : s.Lockstep)
    (hok : (Resolvers.deletePost id req s).1 = .ok true) :
    ∃ p c, findPostById s.posts id = some p ∧ req.userId = some p.creator ∧
      findUserById s.users (some p.creator) = some c ∧ c.posts.count id = 1 ∧
      findPostById (Resolvers.deletePost id req s).2.posts id = none ∧
      (Resolvers.deletePost id req s).2.users =
        s.users.map (fun u =>
          if u._id = p.creator then { u with posts := u.posts.erase id } else u) := by
  rcases deletePost_state id req s hc with ⟨_, hfail⟩ | ⟨p, c, hpmem, hpid, huser, hcu, h⟩
  · exact absurd hok hfail
  · have hcmem := findUserById_mem _ _ _ hcu
    have hcid : c._id = p.creator := by
      have := findUserById_id _ _ _ hcu
      simpa using this.symm
    obtain ⟨hc1, _, hc3⟩ := hs c hcmem
    have hin : id ∈ c.posts := by
      rw [← hpid]
      exact hc3 p hpmem hcid.symm
    have hfind : findPostById s.posts id = some p := by
      rw [← hpid]
      exact findPostById_of_mem s.posts p hc.1 hpmem
    have herase : c.posts.filter (fun r => r != id) = c.posts.erase id := by
      rw [hc1.erase_eq_filter id]
    refine ⟨p, c, hfind, huser, hcu, List.count_eq_one_of_mem hc1 hin, ?_, ?_⟩
    · rw [h]
      show findPostById (removePostById id s.posts) id = none
      rw [removePostById_eq_filter id s.posts hc.1]
      simp [findPostById, List.find?_eq_none]
    · rw [h]
      show saveUser _ s.users = _
      rw [saveUser_eq_map _ _ hc.2.1, herase]
      apply List.map_congr_left
      intro u hu
      by_cases hui : u._id = p.creator
      · have : u = c := List.inj_on_of_nodup_map hc.2.1 hu hcmem (hui.trans hcid.symm)
        subst this
        simp [hui]
      · have : ¬ u._id = c._id := fun e => hui (e.trans hcid)
        simp [hui, this]

/-- The empty stores are in lockstep. -/
theorem lockstep_empty : emptyState.Lockstep := by
  decide

/-- C15: in every state reached from the empty stores by a sequence of `createUser`,
`createPost`, `updatePost`, `deletePost` and `updateStatus` calls, successful or failed, a post
id is in a user's `posts` list exactly when that post is in the post store with that user as
creator, and it occurs there once. In such a state `createPost` succeeds for an authenticated
existing user with valid input and a non-empty `imageUrl`, and a successful `createPost` adds
exactly the reference of the new post to the list of the acting user; `deletePost` succeeds
for the authenticated creator of a stored post, and a successful `deletePost` removes exactly
the reference of the deleted post from the list of its creator. -/
theorem backrefs_in_lockstep (calls : List Call) :
    (∀ u ∈ (runCalls calls emptyState).users, ∀ id,
      (id ∈ u.posts ↔
        ∃ p ∈ (runCalls calls emptyState).posts, p._id = id ∧ p.creator = u._id) ∧
      (id ∈ u.posts → u.posts.count id = 1)) ∧
    (∀ postInput req now user, req.isAuth = true →
      findUserById (runCalls calls emptyState).users req.userId = some user →
      5 ≤ validatorLength postInput.title → 5 ≤ validatorLength postInput.content →
      postInput.imageUrl ≠ "" →
      ∃ doc, (Resolvers.createPost postInput req now (runCalls calls emptyState)).1 = .ok doc) ∧
    (∀ postInput req now doc,
      (Resolvers.createPost postInput req now (runCalls calls emptyState)).1 = .ok doc →
      ∃ user, findUserById (runCalls calls emptyState).users req.userId = some user ∧
        doc._id ∉ user.posts ∧
        (∀ p ∈ (runCalls calls emptyState).posts, p._id ≠ doc._id) ∧
        (∃ post,
          findPostById
            (Resolvers.createPost postInput req now (runCalls calls emptyState)).2.posts
            doc._id = some post ∧ post.creator = user._id) ∧
        (Resolvers.createPost postInput req now (runCalls calls emptyState)).2.users =
          (runCalls calls emptyState).users.map (fun u =>
            if u._id = user._id then { u with posts := u.posts ++ [doc._id] } else u)) ∧
    (∀ p ∈ (runCalls calls emptyState).posts, ∀ req, req.isAuth = true →
      req.userId = some p.creator →
      (Resolvers.deletePost p._id req (runCalls calls emptyState)).1 = .ok true) ∧
    (∀ id req,
      (Resolvers.deletePost id req (runCalls calls emptyState)).1 = .ok true →
      ∃ p c, findPostById (runCalls calls emptyState).posts id = some p ∧
        req.userId = some p.creator ∧
        findUserById (runCalls calls emptyState).users (some p.creator) = some c ∧
        c.posts.count id = 1 ∧
        findPostById (Resolvers.deletePost id req (runCalls calls emptyState)).2.posts id =
          none ∧
        (Resolvers.deletePost id req (runCalls calls emptyState)).2.users =
          (runCalls calls emptyState).users.map (fun u =>
            if u._id = p.creator then { u with posts := u.posts.erase id } else u)) := by
  obtain ⟨hc, hs⟩ := runCalls_keeps_invariant calls emptyState consistent_empty lockstep_empty
  refine ⟨fun u hu id => lockstep_reading _ hs u hu id, ?_,
    fun postInput req now doc hok => createPost_adds_reference postInput req now _ hc hs doc hok,
    ?_, fun id req hok => deletePost_removes_reference id req _ hc hs hok⟩
  · intro postInput req now user hauth huser htitle hcontent himage
    rw [createPost_valid postInput req now _ user hauth huser htitle hcontent himage]
    exact ⟨_, rfl⟩
  · intro p hp req hauth huser
    obtain ⟨c, hcu⟩ := findUserById_of_exists _ p.creator (hc.2.2.1 p hp)
    rw [deletePost_by_creator _ p req c (findPostById_of_mem _ p hc.1 hp) hcu hauth huser]

/-- C15, concrete instance: after the signup of Ann and her first post, her list holds the id
of that post; a second post is added to it, and deleting the first post empties it again. -/
theorem backrefs_in_lockstep_witness :
    (runCalls sampleCalls emptyState).users.map (fun u => (u._id, u.posts)) = [(1, [2])] ∧
    (runCalls sampleCalls emptyState).posts.map (fun p => (p._id, p.creator)) = [(2, 1)] ∧
    (∃ doc, (Resolvers.createPost
        { title := "Second", content := "World", imageUrl := "images/d.png" }
        { isAuth := true, userId := some 1 } 400 (runCalls sampleCalls emptyState)).1 =
          .ok doc ∧ doc._id = 3) ∧
    (Resolvers.createPost { title := "Second", content := "World", imageUrl := "images/d.png" }
        { isAuth := true, userId := some 1 } 400
        (runCalls sampleCalls emptyState)).2.users.map (fun u => (u._id, u.posts)) =
      [(1, [2, 3])] ∧
    (Resolvers.deletePost 2 { isAuth := true, userId := some 1 }
        (runCalls sampleCalls emptyState)).1 = .ok true ∧
    (Resolvers.deletePost 2 { isAuth := true, userId := some 1 }
        (runCalls sampleCalls emptyState)).2.users.map (fun u => (u._id, u.posts)) =
      [(1, [])] := by
  have h := backrefs_in_lockstep sampleCalls
  have husers : (runCalls sampleCalls emptyState).users.map (fun u => (u._id, u.posts)) =
      [(1, [2])] := by decide
  have hposts : (runCalls sampleCalls emptyState).posts.map (fun p => (p._id, p.creator)) =
      [(2, 1)] := by decide
  obtain ⟨doc, hdoc⟩ := h.2.1
    { title := "Second", content := "World", imageUrl := "images/d.png" }
    { isAuth := true, userId := some 1 } 400
    { _id := 1, email := "a@b.com", password := "hashed:abcde", name := "Ann",
      status := "I am new!", posts := [2] }
    rfl (by decide) (by decide) (by decide) (by decide)
  obtain ⟨user, _, _, _, _, hadd⟩ := h.2.2.1
    { title := "Second", content := "World", imageUrl := "images/d.png" }
    { isAuth := true, userId := some 1 } 400 doc hdoc
  have hdel := h.2.2.2.1
    { _id := 2, title := "Title", imageUrl := "images/c.png", content := "Hello", creator := 1,
      createdAt := 300, updatedAt := 300 }
    (by decide) { isAuth := true, userId := some 1 } rfl rfl
  obtain ⟨p, c, _, _, _, _, _, hrem⟩ := h.2.2.2.2 2 { isAuth := true, userId := some 1 } hdel
  refine ⟨husers, hposts, ⟨doc, hdoc, ?_⟩, by decide, hdel, by decide⟩
  have hd : (Resolvers.createPost
      { title := "Second", content := "World", imageUrl := "images/d.png" }
      { isAuth := true, userId := some 1 } 400 (runCalls sampleCalls emptyState)).1 =
        .ok { _id := 3, title := "Second", imageUrl := "images/d.png", content := "World",
              creator := some { _id := 1, email := "a@b.com", password := "hashed:abcde",
                                name := "Ann", status := "I am new!", posts := [2, 3] },
              createdAt := 400, updatedAt := 400 } := by rfl
  rw [hd] at hdoc
  cases hdoc
  rfl

end Blog
